import Mathlib

/-!
Shallow embedding of NumbFS-utils (src/lib.c, src/mkfs.c, src/disk.h,
src/internal.h).

The device is modelled as a total map from block numbers to byte maps
(512 bytes per block).  C `int` return values are `Int`; byte values are
`Nat` kept below 256 by the operations that produce them.  Block I/O is
modelled as always succeeding except where a claim is about transfer
faults, in which case a variant of the function takes the outcome of each
transfer as an explicit parameter.
-/

def BYTES_PER_BLOCK : Nat := 512

def BITS_PER_BYTE : Nat := 8

def NUMBFS_BLOCKS_PER_BLOCK : Nat := BYTES_PER_BLOCK * BITS_PER_BYTE

def NUMBFS_NUM_DATA_ENTRY : Nat := 10

def NUMBFS_HOLE : Int := -32

/-- BYTES_PER_BLOCK / sizeof(struct numbfs_inode) = 512 / 64. -/
def NUMBFS_NODES_PER_BLOCK : Nat := 8

def EIO' : Int := 5

def E2BIG : Int := 7

def ENOMEM : Int := 12

def EINVAL : Int := 22

def ENOTSUP : Int := 95

def DT_DIR : Nat := 4

def S_IFDIR : Nat := 16384

/-- One 512-byte block: byte index (0..511 relevant) to byte value. -/
abbrev Block := Nat → Nat

/-- The device: block number to block contents. -/
abbrev Disk := Nat → Block

def diskWrite (d : Disk) (b : Nat) (blk : Block) : Disk :=
  fun n => if n = b then blk else d n

def zeroBlock : Block := fun _ => 0

def byteUpdate (blk : Block) (byte v : Nat) : Block :=
  fun n => if n = byte then v else blk n

/-- internal.h: numbfs_bmap_blk. -/
def numbfs_bmap_blk (startblk blkno : Nat) : Nat :=
  startblk + blkno / NUMBFS_BLOCKS_PER_BLOCK

/-- internal.h: numbfs_bmap_byte. -/
def numbfs_bmap_byte (blkno : Nat) : Nat :=
  (blkno % NUMBFS_BLOCKS_PER_BLOCK) / BITS_PER_BYTE

/-- internal.h: numbfs_bmap_bit. -/
def numbfs_bmap_bit (blkno : Nat) : Nat :=
  (blkno % NUMBFS_BLOCKS_PER_BLOCK) % BITS_PER_BYTE

/-- The bitmap bit of unit `i` of the region starting at block `startblk`,
as stored on the device (`buf[byte] & (1 << bit)` in the C code). -/
def testBitAt (d : Disk) (startblk i : Nat) : Bool :=
  Nat.testBit (d (numbfs_bmap_blk startblk i) (numbfs_bmap_byte i)) (numbfs_bmap_bit i)

/-- `buf[byte] |= (1 << bit)` on one byte. -/
def setBitByte (v bit : Nat) : Nat := v ||| 2 ^ bit

/-- `buf[byte] &= ~(1 << bit)` on one byte (byte values are < 256). -/
def clearBitByte (v bit : Nat) : Nat := v &&& (255 - 2 ^ bit)

/-- The first-fit scan of numbfs_bitmap_alloc (src/lib.c:83-103):
starting at unit `i` with `n` units left to inspect, the first unit whose
bit is 0.  The C loop keeps the bitmap block containing unit `i` in a
local buffer, reloading at each block boundary; nothing is written before
the first free bit is found, so the buffer always equals the device block
and the loop is exactly this scan. -/
def bitmapScan (d : Disk) (startblk : Nat) : Nat → Nat → Option Nat
  | _, 0 => none
  | i, n + 1 => if testBitAt d startblk i then bitmapScan d startblk (i + 1) n else some i

/-- The read-modify-write of the bitmap block containing unit `i` that
sets unit `i`'s bit (src/lib.c:96-97). -/
def bitmapSetUnit (d : Disk) (startblk i : Nat) : Disk :=
  let blk := numbfs_bmap_blk startblk i
  let buf := d blk
  diskWrite d blk (byteUpdate buf (numbfs_bmap_byte i)
    (setBitByte (buf (numbfs_bmap_byte i)) (numbfs_bmap_bit i)))

/-- The read-modify-write of the bitmap block containing unit `i` that
clears unit `i`'s bit (src/lib.c:131-133). -/
def bitmapClearUnit (d : Disk) (startblk i : Nat) : Disk :=
  let blk := numbfs_bmap_blk startblk i
  let buf := d blk
  diskWrite d blk (byteUpdate buf (numbfs_bmap_byte i)
    (clearBitByte (buf (numbfs_bmap_byte i)) (numbfs_bmap_bit i)))

/-- src/lib.c:77 numbfs_bitmap_alloc.  Scans for the first free unit; if
found, sets its bit and writes the containing bitmap block back.  The free
counter `status` is decremented even when the scan finds nothing, in which
case the output id `*res` is left unset (modelled as `none`).
Returns (C return value, *res, *status, device). -/
def numbfs_bitmap_alloc (d : Disk) (startblk total : Nat) (status : Int) :
    Int × Option Nat × Int × Disk :=
  match bitmapScan d startblk 0 total with
  | some i => (0, some i, status - 1, bitmapSetUnit d startblk i)
  | none => (0, none, status - 1, d)

/-- src/lib.c:118 numbfs_bitmap_free, with the outcome of its two block
transfers explicit (`false` = the transfer succeeds).  `none` models the
BUG_ON abort on freeing a unit whose bit is already clear (the bit is read
from the loaded block, i.e. from the device).  The C function assigns the
result of the write-back transfer to `err` but returns 0 regardless, so
the returned value is 0 in both write outcomes. -/
def numbfs_bitmap_free_io (readFails writeFails : Bool) (d : Disk)
    (startblk free : Nat) (status : Int) : Option (Int × Int × Disk) :=
  if readFails then some (-EIO', status, d)
  else if testBitAt d startblk free = false then none
  else
    let d2 := if writeFails then d else bitmapClearUnit d startblk free
    some (0, status + 1, d2)

/-- numbfs_bitmap_free with both transfers succeeding. -/
def numbfs_bitmap_free (d : Disk) (startblk free : Nat) (status : Int) :
    Option (Int × Int × Disk) :=
  numbfs_bitmap_free_io false false d startblk free status

/-- internal.h struct numbfs_superblock_info (the fields the library uses;
`fd` is the device map itself). -/
structure FsState where
  disk : Disk
  ibitmap_start : Nat
  inode_start : Nat
  bbitmap_start : Nat
  data_start : Nat
  total_inodes : Nat
  data_blocks : Nat
  free_inodes : Int
  free_blocks : Int

instance : Inhabited FsState :=
  ⟨⟨fun _ => zeroBlock, 0, 0, 0, 0, 0, 0, 0, 0⟩⟩

/-- src/lib.c:109 numbfs_alloc_block. -/
def numbfs_alloc_block (st : FsState) : Int × Option Nat × FsState :=
  if st.free_blocks = 0 then (-ENOMEM, none, st)
  else
    let r := numbfs_bitmap_alloc st.disk st.bbitmap_start st.data_blocks st.free_blocks
    (r.1, r.2.1, { st with disk := r.2.2.2, free_blocks := r.2.2.1 })

/-- src/lib.c:139 numbfs_free_block. -/
def numbfs_free_block (st : FsState) (blkno : Nat) : Option (Int × FsState) :=
  if st.data_blocks ≤ blkno then some (-EINVAL, st)
  else
    match numbfs_bitmap_free st.disk st.bbitmap_start blkno st.free_blocks with
    | none => none
    | some (r, s, d) => some (r, { st with disk := d, free_blocks := s })

/-- src/lib.c:330 numbfs_alloc_inode. -/
def numbfs_alloc_inode (st : FsState) : Int × Option Nat × FsState :=
  if st.free_inodes = 0 then (-ENOMEM, none, st)
  else
    let r := numbfs_bitmap_alloc st.disk st.ibitmap_start st.total_inodes st.free_inodes
    (r.1, r.2.1, { st with disk := r.2.2.2, free_inodes := r.2.2.1 })

/-- src/lib.c:339 numbfs_free_inode. -/
def numbfs_free_inode (st : FsState) (nid : Nat) : Option (Int × FsState) :=
  if st.total_inodes ≤ nid then some (-EINVAL, st)
  else
    match numbfs_bitmap_free st.disk st.ibitmap_start nid st.free_inodes with
    | none => none
    | some (r, s, d) => some (r, { st with disk := d, free_inodes := s })

/-- internal.h struct numbfs_inode_info (in-memory inode mirror). -/
structure InodeInfo where
  nid : Nat
  mode : Nat
  nlink : Nat
  uid : Nat
  gid : Nat
  size : Nat
  data : Nat → Int

/-- internal.h: numbfs_data_blk. -/
def numbfs_data_blk (st : FsState) (blk : Nat) : Nat := st.data_start + blk

/-- internal.h: numbfs_inode_blk. -/
def numbfs_inode_blk (st : FsState) (nid : Nat) : Nat :=
  st.inode_start + nid / NUMBFS_NODES_PER_BLOCK

/-- src/lib.c:177 numbfs_inode_blkaddr.  `none` marks the one path where
the C code reads an uninitialized variable (allocation "succeeded" but the
scan set no id, possible only when the free counter and the bitmap are
desynchronized). -/
def numbfs_inode_blkaddr (st : FsState) (ino : InodeInfo) (pos : Nat)
    (alloc extent : Bool) : Option (Int × FsState × InodeInfo) :=
  if extent then some (-ENOTSUP, st, ino)
  else if NUMBFS_NUM_DATA_ENTRY ≤ pos / BYTES_PER_BLOCK then some (-E2BIG, st, ino)
  else if alloc = true ∧ ino.data (pos / BYTES_PER_BLOCK) = NUMBFS_HOLE then
    let r := numbfs_alloc_block st
    if r.1 ≠ 0 then some (r.1, r.2.2, ino)
    else
      match r.2.1 with
      | none => none
      | some blkno =>
          let st3 := { r.2.2 with
            disk := diskWrite (r.2.2).disk (numbfs_data_blk r.2.2 blkno) zeroBlock }
          let ino2 := { ino with
            data := fun k => if k = pos / BYTES_PER_BLOCK then (blkno : Int) else ino.data k }
          some ((blkno : Int), st3, ino2)
  else some (ino.data (pos / BYTES_PER_BLOCK), st, ino)

/-- Little-endian byte `j` of a 16-bit field. -/
def le16 (v j : Nat) : Nat := v / 256 ^ j % 256

/-- Little-endian byte `j` of a 32-bit field holding a Nat. -/
def le32n (v j : Nat) : Nat := v / 256 ^ j % 256

/-- Little-endian byte `j` of a 32-bit field holding a C int
(two's complement; NUMBFS_HOLE = -32 serializes as 0xFFFFFFE0). -/
def le32i (v : Int) (j : Nat) : Nat := (v % (2 ^ 32 : Int)).toNat / 256 ^ j % 256

/-- Byte `j` (0 ≤ j < 64) of the on-disk inode record as rewritten by
numbfs_dump_inode (src/lib.c:212): i_ino, i_nlink, i_uid, i_gid, i_mode,
i_size and i_data are overwritten; i_xattr_start, i_xattr_count and the
padding (bytes 16..23) keep the bytes read from the device. -/
def inodeRecordByte (ino : InodeInfo) (old : Block) (base j : Nat) : Nat :=
  if j < 2 then le16 ino.nid j
  else if j < 4 then le16 ino.nlink (j - 2)
  else if j < 6 then le16 ino.uid (j - 4)
  else if j < 8 then le16 ino.gid (j - 6)
  else if j < 12 then le32n ino.mode (j - 8)
  else if j < 16 then le32n ino.size (j - 12)
  else if j < 24 then old (base + j)
  else le32i (ino.data ((j - 24) / 4)) ((j - 24) % 4)

/-- src/lib.c:212 numbfs_dump_inode: read the inode block, overwrite this
inode's 64-byte slot, write the block back. -/
def numbfs_dump_inode (st : FsState) (ino : InodeInfo) : FsState :=
  let blk := numbfs_inode_blk st ino.nid
  let base := 64 * (ino.nid % NUMBFS_NODES_PER_BLOCK)
  let old := st.disk blk
  let nb : Block := fun n =>
    if base ≤ n ∧ n < base + 64 then inodeRecordByte ino old base (n - base) else old n
  { st with disk := diskWrite st.disk blk nb }

/-- src/lib.c:266 numbfs_pwrite_inode. -/
def numbfs_pwrite_inode (st : FsState) (ino : InodeInfo) (buf : Block)
    (offset len : Nat) : Option (Int × FsState × InodeInfo) :=
  let off := offset % BYTES_PER_BLOCK
  if BYTES_PER_BLOCK < off + len then some (-E2BIG, st, ino)
  else
    let ino1 := { ino with size := max ino.size (offset + len) }
    match numbfs_inode_blkaddr st ino1 offset true false with
    | none => none
    | some (target, st1, ino2) =>
      if target < 0 then some (target, st1, ino2)
      else
        let pblk := numbfs_data_blk st1 target.toNat
        let tmp := st1.disk pblk
        let tmp2 : Block := fun n => if off ≤ n ∧ n < off + len then buf (n - off) else tmp n
        let st2 := { st1 with disk := diskWrite st1.disk pblk tmp2 }
        some (0, numbfs_dump_inode st2 ino2, ino2)

/-- src/lib.c:300 numbfs_pread_inode.  Returns (C return value, caller
buffer after the call); `buf` is the caller's buffer before the call.
Note the hole path executes `memset(buf, len, BYTES_PER_BLOCK)`: the fill
byte is the length truncated to a byte, not zero. -/
def numbfs_pread_inode (st : FsState) (ino : InodeInfo) (buf : Block)
    (offset len : Nat) : Option (Int × Block) :=
  let off := offset % BYTES_PER_BLOCK
  if BYTES_PER_BLOCK < off + len then some (-E2BIG, buf)
  else
    match numbfs_inode_blkaddr st ino offset false false with
    | none => none
    | some (target, _, _) =>
      if target < 0 ∧ target ≠ NUMBFS_HOLE then some (target, buf)
      else if ino.size ≤ offset ∨ target = NUMBFS_HOLE then
        some (0, fun n => if n < BYTES_PER_BLOCK then len % 256 else buf n)
      else
        let tmp := st.disk (numbfs_data_blk st target.toNat)
        some (0, fun n => if n < len then tmp (off + n) else buf n)

/-- The directory-entry buffer built by numbfs_empty_dir (src/lib.c:369):
two struct numbfs_dirent records ("." then "..") written over the
uninitialized stack buffer `bufInit`; name bytes beyond the NUL and bytes
past the second record are left as they were. -/
def mkDirentBuf (bufInit : Block) (nid pnid : Nat) : Block := fun n =>
  if n = 0 then 1
  else if n = 1 then DT_DIR
  else if n = 2 then 46
  else if n = 3 then 0
  else if n = 62 then le16 nid 0
  else if n = 63 then le16 nid 1
  else if n = 64 then 2
  else if n = 65 then DT_DIR
  else if n = 66 then 46
  else if n = 67 then 46
  else if n = 68 then 0
  else if n = 126 then le16 pnid 0
  else if n = 127 then le16 pnid 1
  else bufInit n

/-- src/lib.c:348 numbfs_empty_dir.  `uid`/`gid` are the process identity,
`bufInit` the uninitialized stack buffer.  Returns the new inode id (≥ 0)
or a negative error, with the resulting device state. -/
def numbfs_empty_dir (st : FsState) (pnid uid gid : Nat) (bufInit : Block) :
    Option (Int × FsState) :=
  let r := numbfs_alloc_inode st
  if r.1 ≠ 0 then some (r.1, r.2.2)
  else
    match r.2.1 with
    | none => none
    | some nid =>
        let ino : InodeInfo :=
          { nid := nid, mode := S_IFDIR ||| 493, nlink := 2, uid := uid, gid := gid,
            size := 2 * 64, data := fun _ => NUMBFS_HOLE }
        let buf := mkDirentBuf bufInit nid pnid
        match numbfs_pwrite_inode r.2.2 ino buf 0 (2 * 64) with
        | none => none
        | some (err2, st2, _) =>
            if err2 ≠ 0 then some (err2, st2) else some ((nid : Int), st2)

/-! ### mkfs geometry (src/mkfs.c:186-244), C int arithmetic via Int.tdiv -/

/-- DIV_ROUND_UP(n, d) = ((n) + (d) - 1) / (d) with C truncating division. -/
def DIV_ROUND_UP (n d : Int) : Int := (n + d - 1).tdiv d

/-- round_up(x, y) for the power-of-two y used here. -/
def round_up (x y : Int) : Int := DIV_ROUND_UP x y * y

def mkfs_total_blocks (size : Int) : Int := size.tdiv 512

def mkfs_ibitmap_start : Int := 2

def mkfs_inode_start (n : Int) : Int :=
  mkfs_ibitmap_start + DIV_ROUND_UP (DIV_ROUND_UP n 8) 512

def mkfs_bbitmap_start (n : Int) : Int :=
  mkfs_inode_start n + DIV_ROUND_UP (n * 64) 512

def mkfs_remain (size n : Int) : Int :=
  mkfs_total_blocks size - mkfs_bbitmap_start n - 1

def mkfs_data_blocks (size n : Int) : Int :=
  mkfs_remain size n - DIV_ROUND_UP (DIV_ROUND_UP (mkfs_remain size n) 8) 512

def mkfs_data_start (size n : Int) : Int :=
  mkfs_bbitmap_start n + DIV_ROUND_UP (DIV_ROUND_UP (mkfs_data_blocks size n) 8) 512

/-- The inputs the format tool accepts: num_inodes positive and a multiple
of 8 (src/mkfs.c:87), and the device larger than the undersized-device
bound (src/mkfs.c:186). -/
def mkfs_accepted (size n : Int) : Prop :=
  0 < n ∧ n % 8 = 0 ∧ 2 * 512 + round_up (n * 64) 512 + 3 < size

instance (size n : Int) : Decidable (mkfs_accepted size n) := by
  unfold mkfs_accepted; infer_instance

/-! ### Bitmap population count and the counter/bitmap invariant -/

/-- Number of set bits among the `total` units of the bitmap region that
starts at block `startblk`. -/
def bitCount (d : Disk) (startblk total : Nat) : Nat :=
  ((Finset.range total).filter fun i => testBitAt d startblk i).card

/-- The consistency invariant of one bitmap region: the free counter
equals the unit count minus the population count of the bitmap
(`free_count == unit_count - popcount(bitmap)`). -/
def RegionInv (startblk total : Nat) (d : Disk) (status : Int) : Prop :=
  status = (total : Int) - (bitCount d startblk total : Int)

instance (startblk total : Nat) (d : Disk) (status : Int) :
    Decidable (RegionInv startblk total d status) := by
  unfold RegionInv; infer_instance

/-- The invariant for the data-block bitmap of a superblock mirror. -/
def BlockBitmapInv (st : FsState) : Prop :=
  RegionInv st.bbitmap_start st.data_blocks st.disk st.free_blocks

instance (st : FsState) : Decidable (BlockBitmapInv st) := by
  unfold BlockBitmapInv; infer_instance

/-- The invariant for the inode bitmap of a superblock mirror. -/
def InodeBitmapInv (st : FsState) : Prop :=
  RegionInv st.ibitmap_start st.total_inodes st.disk st.free_inodes

instance (st : FsState) : Decidable (InodeBitmapInv st) := by
  unfold InodeBitmapInv; infer_instance

/-- One allocation on a bitmap region, with the free-counter guard of
numbfs_alloc_block / numbfs_alloc_inode (src/lib.c:111,332). -/
def regionAlloc (startblk total : Nat) (d : Disk) (status : Int) :
    Int × Option Nat × Int × Disk :=
  if status = 0 then (-ENOMEM, none, status, d)
  else numbfs_bitmap_alloc d startblk total status

/-- One free on a bitmap region, with the range guard of
numbfs_free_block / numbfs_free_inode (src/lib.c:141,341). -/
def regionFree (startblk total : Nat) (d : Disk) (status : Int) (i : Nat) :
    Option (Int × Int × Disk) :=
  if total ≤ i then some (-EINVAL, status, d)
  else numbfs_bitmap_free d startblk i status

/-- `N` successive allocations on one region; returns the list of ids
handed out (in order) and the final counter and device. -/
def regionAllocN (startblk total : Nat) : Disk → Int → Nat → List Nat × Int × Disk
  | d, status, 0 => ([], status, d)
  | d, status, N + 1 =>
      let r := regionAlloc startblk total d status
      let rest := regionAllocN startblk total r.2.2.2 r.2.2.1 N
      (r.2.1.toList ++ rest.1, rest.2)

/-- The region invariant holds after every one of `N` successive
allocations. -/
def AllocChainInv (startblk total : Nat) : Disk → Int → Nat → Prop
  | _, _, 0 => True
  | d, status, N + 1 =>
      let r := regionAlloc startblk total d status
      RegionInv startblk total r.2.2.2 r.2.2.1 ∧
        AllocChainInv startblk total r.2.2.2 r.2.2.1 N

/-- Freeing the listed units in order: every free succeeds (returns 0)
and the region invariant holds after every step. -/
def FreeChainInv (startblk total : Nat) : Disk → Int → List Nat → Prop
  | _, _, [] => True
  | d, status, i :: rest =>
      ∃ s2 d2, regionFree startblk total d status i = some (0, s2, d2) ∧
        RegionInv startblk total d2 s2 ∧ FreeChainInv startblk total d2 s2 rest

/-! ### On-disk record layouts (src/disk.h)

Modelled from the spec: the `struct numbfs_super_block` revision these
tools are written against (`lib.c`, `mkfs.c` and `fsck.c` all access
`s_total_inodes`, `s_free_inodes`, `s_data_blocks` and `s_free_blocks`)
is not among the provided sources; the provided `disk.h` is an earlier
revision of the header that no provided `.c` file compiles against.  The
record is ten little-endian 32-bit fields in the spec's order followed by
reserved padding filling the record to the 128 bytes that
`numbfs_check_ondisk` enforces at build time. -/

/-- Sizes, in bytes and in field order, of the on-disk superblock record:
magic, feature, ibitmap_start, inode_start, bbitmap_start, data_start,
total_inodes, free_inodes, data_blocks, free_blocks, reserved. -/
def numbfs_super_block_field_sizes : List Nat := [4, 4, 4, 4, 4, 4, 4, 4, 4, 4, 88]

/-- Sizes, in bytes and in field order, of the 64-byte on-disk inode
record (src/disk.h:49): i_ino, i_nlink, i_uid, i_gid, i_mode, i_size,
i_xattr_start, i_xattr_count, padding, i_data[10]. -/
def numbfs_inode_field_sizes : List Nat := [2, 2, 2, 2, 4, 4, 4, 1, 3, 40]

/-- Sizes, in bytes and in field order, of the 64-byte on-disk directory
entry (src/disk.h:66): name_len, type, name[60], ino. -/
def numbfs_dirent_field_sizes : List Nat := [1, 1, 60, 2]

/-- Byte offsets of a record's fields, from the field sizes. -/
def layoutOffsets : Nat → List Nat → List Nat
  | _, [] => []
  | o, s :: rest => o :: layoutOffsets (o + s) rest

def sizeof_numbfs_super_block : Nat := numbfs_super_block_field_sizes.sum

def sizeof_numbfs_inode : Nat := numbfs_inode_field_sizes.sum

def sizeof_numbfs_dirent : Nat := numbfs_dirent_field_sizes.sum

/-- src/disk.h:82 numbfs_check_ondisk: the build-time layout check. -/
def numbfs_check_ondisk : Prop :=
  sizeof_numbfs_super_block = 128 ∧ sizeof_numbfs_inode = 64 ∧
    sizeof_numbfs_dirent = 64

instance : Decidable numbfs_check_ondisk := by
  unfold numbfs_check_ondisk; infer_instance

/-- Modelled from the spec: struct numbfs_super_block (see the section
comment above). -/
structure NumbfsSuperBlock where
  s_magic : Nat
  s_feature : Nat
  s_ibitmap_start : Nat
  s_inode_start : Nat
  s_bbitmap_start : Nat
  s_data_start : Nat
  s_total_inodes : Nat
  s_free_inodes : Nat
  s_data_blocks : Nat
  s_free_blocks : Nat

/-- Byte `i` of the serialized on-disk superblock record: each field is a
little-endian 32-bit integer at its layout offset; the reserved tail pads
the record to 128 bytes. -/
def encode_numbfs_super_block (sb : NumbfsSuperBlock) (i : Nat) : Nat :=
  if i < 4 then le32n sb.s_magic i
  else if i < 8 then le32n sb.s_feature (i - 4)
  else if i < 12 then le32n sb.s_ibitmap_start (i - 8)
  else if i < 16 then le32n sb.s_inode_start (i - 12)
  else if i < 20 then le32n sb.s_bbitmap_start (i - 16)
  else if i < 24 then le32n sb.s_data_start (i - 20)
  else if i < 28 then le32n sb.s_total_inodes (i - 24)
  else if i < 32 then le32n sb.s_free_inodes (i - 28)
  else if i < 36 then le32n sb.s_data_blocks (i - 32)
  else if i < 40 then le32n sb.s_free_blocks (i - 36)
  else 0

/-! ### Concrete states used by witnesses and counterexamples -/

/-- A small all-zero device. -/
def sampleDisk : Disk := fun _ => zeroBlock

/-- A small superblock mirror over an all-zero device: both bitmaps empty,
8 inodes and 8 data blocks, zones at blocks 2/3/4/5. -/
def sampleSt : FsState :=
  { disk := sampleDisk, ibitmap_start := 2, inode_start := 3,
    bbitmap_start := 4, data_start := 5, total_inodes := 8, data_blocks := 8,
    free_inodes := 8, free_blocks := 8 }

/-- An inode mirror whose ten slots are all holes. -/
def holeInode : InodeInfo :=
  { nid := 1, mode := 0, nlink := 1, uid := 0, gid := 0, size := 0,
    data := fun _ => NUMBFS_HOLE }

/-- An inode mirror whose slot 0 is mapped to data block 0. -/
def mappedInode : InodeInfo :=
  { nid := 1, mode := 0, nlink := 1, uid := 0, gid := 0, size := 0,
    data := fun k => if k = 0 then 0 else NUMBFS_HOLE }

/-- A caller buffer filled with the byte 7 (stands for stack garbage). -/
def garbageBuf : Block := fun _ => 7

/-- A concrete write buffer: byte n holds 100 + n. -/
def c3buf : Block := fun n => 100 + n

/-- A concrete read buffer filled with the byte 3. -/
def c3rbuf : Block := fun _ => 3

/-- The state after writing `c3buf` at offset 10, length 5. -/
def c3st2 : FsState :=
  ((numbfs_pwrite_inode sampleSt mappedInode c3buf 10 5).getD
    (0, sampleSt, holeInode)).2.1

/-- The inode mirror after writing `c3buf` at offset 10, length 5. -/
def c3ino2 : InodeInfo :=
  ((numbfs_pwrite_inode sampleSt mappedInode c3buf 10 5).getD
    (0, sampleSt, holeInode)).2.2

/-- A device whose only set bitmap bit is unit 0 of the region at block 4. -/
def oneBitDisk : Disk :=
  fun b => if b = 4 then (fun n => if n = 0 then 1 else 0) else zeroBlock

/-- The superblock of the 10 MiB / 4096-inode example image. -/
def exampleSuperBlock : NumbfsSuperBlock :=
  { s_magic := 1314147650, s_feature := 0, s_ibitmap_start := 2,
    s_inode_start := 3, s_bbitmap_start := 515, s_data_start := 520,
    s_total_inodes := 4096, s_free_inodes := 4095, s_data_blocks := 19959,
    s_free_blocks := 19959 }

/-! ### Bitmap lemmas -/

theorem bmap_unit_inj {startblk i j : Nat}
    (hblk : numbfs_bmap_blk startblk j = numbfs_bmap_blk startblk i)
    (hbyte : numbfs_bmap_byte j = numbfs_bmap_byte i)
    (hbit : numbfs_bmap_bit j = numbfs_bmap_bit i) : j = i := by
  simp only [numbfs_bmap_blk, numbfs_bmap_byte, numbfs_bmap_bit,
    NUMBFS_BLOCKS_PER_BLOCK, BYTES_PER_BLOCK, BITS_PER_BYTE] at hblk hbyte hbit
  omega

theorem numbfs_bmap_bit_lt (i : Nat) : numbfs_bmap_bit i < 8 := by
  simp only [numbfs_bmap_bit, NUMBFS_BLOCKS_PER_BLOCK, BYTES_PER_BLOCK, BITS_PER_BYTE]
  omega

theorem testBit_clear_mask {b j : Nat} (hb : b < 8) (hj : j < 8) :
    Nat.testBit (255 - 2 ^ b) j = decide (j ≠ b) := by
  interval_cases b <;> interval_cases j <;> decide

theorem testBitAt_bitmapSetUnit (d : Disk) (startblk i j : Nat) :
    testBitAt (bitmapSetUnit d startblk i) startblk j =
      (decide (j = i) || testBitAt d startblk j) := by
  simp only [testBitAt, bitmapSetUnit, diskWrite, byteUpdate, setBitByte, ite_apply]
  by_cases hblk : numbfs_bmap_blk startblk j = numbfs_bmap_blk startblk i
  · rw [if_pos hblk]
    by_cases hbyte : numbfs_bmap_byte j = numbfs_bmap_byte i
    · rw [if_pos hbyte, Nat.testBit_lor, Nat.testBit_two_pow]
      by_cases hbit : numbfs_bmap_bit j = numbfs_bmap_bit i
      · have hji : j = i := bmap_unit_inj hblk hbyte hbit
        rw [hblk, hbyte, hbit]
        simp [hji]
      · have hji : j ≠ i := fun h => hbit (h ▸ rfl)
        rw [hblk, hbyte]
        simp [hji, Ne.symm hbit]
    · have hji : j ≠ i := fun h => hbyte (h ▸ rfl)
      rw [if_neg hbyte, hblk]
      simp [hji]
  · have hji : j ≠ i := fun h => hblk (h ▸ rfl)
    rw [if_neg hblk]
    simp [hji]

theorem testBitAt_bitmapClearUnit (d : Disk) (startblk i j : Nat) :
    testBitAt (bitmapClearUnit d startblk i) startblk j =
      (decide (j ≠ i) && testBitAt d startblk j) := by
  simp only [testBitAt, bitmapClearUnit, diskWrite, byteUpdate, clearBitByte, ite_apply]
  by_cases hblk : numbfs_bmap_blk startblk j = numbfs_bmap_blk startblk i
  · rw [if_pos hblk]
    by_cases hbyte : numbfs_bmap_byte j = numbfs_bmap_byte i
    · rw [if_pos hbyte, Nat.testBit_land,
        testBit_clear_mask (numbfs_bmap_bit_lt i) (numbfs_bmap_bit_lt j)]
      by_cases hbit : numbfs_bmap_bit j = numbfs_bmap_bit i
      · have hji : j = i := bmap_unit_inj hblk hbyte hbit
        rw [hblk, hbyte, hbit]
        simp [hji]
      · have hji : j ≠ i := fun h => hbit (h ▸ rfl)
        rw [hblk, hbyte]
        simp [hji, hbit]
    · have hji : j ≠ i := fun h => hbyte (h ▸ rfl)
      rw [if_neg hbyte, hblk]
      simp [hji]
  · have hji : j ≠ i := fun h => hblk (h ▸ rfl)
    rw [if_neg hblk]
    simp [hji]

theorem bitCount_le (d : Disk) (startblk total : Nat) :
    bitCount d startblk total ≤ total := by
  calc bitCount d startblk total ≤ (Finset.range total).card :=
        Finset.card_filter_le _ _
    _ = total := Finset.card_range total

theorem bitCount_setUnit (d : Disk) (startblk total i : Nat) (hi : i < total)
    (hclear : testBitAt d startblk i = false) :
    bitCount (bitmapSetUnit d startblk i) startblk total =
      bitCount d startblk total + 1 := by
  unfold bitCount
  have hfe : (Finset.range total).filter
      (fun j => testBitAt (bitmapSetUnit d startblk i) startblk j) =
      insert i ((Finset.range total).filter fun j => testBitAt d startblk j) := by
    ext j
    simp only [Finset.mem_filter, Finset.mem_insert, Finset.mem_range,
      testBitAt_bitmapSetUnit, Bool.or_eq_true, decide_eq_true_eq]
    constructor
    · rintro ⟨hj, hji | hb⟩
      · exact Or.inl hji
      · exact Or.inr ⟨hj, hb⟩
    · rintro (hji | ⟨hj, hb⟩)
      · exact ⟨hji ▸ hi, Or.inl hji⟩
      · exact ⟨hj, Or.inr hb⟩
  rw [hfe, Finset.card_insert_of_not_mem]
  intro hmem
  rw [Finset.mem_filter] at hmem
  rw [hmem.2] at hclear
  simp at hclear

theorem bitCount_clearUnit (d : Disk) (startblk total i : Nat) (hi : i < total)
    (hset : testBitAt d startblk i = true) :
    bitCount (bitmapClearUnit d startblk i) startblk total + 1 =
      bitCount d startblk total := by
  unfold bitCount
  have hfe : (Finset.range total).filter
      (fun j => testBitAt (bitmapClearUnit d startblk i) startblk j) =
      ((Finset.range total).filter fun j => testBitAt d startblk j).erase i := by
    ext j
    simp only [Finset.mem_filter, Finset.mem_erase, Finset.mem_range,
      testBitAt_bitmapClearUnit, Bool.and_eq_true, decide_eq_true_eq]
    constructor
    · rintro ⟨hj, hji, hb⟩
      exact ⟨hji, hj, hb⟩
    · rintro ⟨hji, hj, hb⟩
      exact ⟨hj, hji, hb⟩
  rw [hfe, Finset.card_erase_add_one]
  rw [Finset.mem_filter]
  exact ⟨Finset.mem_range.mpr hi, hset⟩

theorem bitCount_lt_total_of_exists_clear (d : Disk) (startblk total : Nat)
    (h : ∃ j, j < total ∧ testBitAt d startblk j = false) :
    bitCount d startblk total < total := by
  obtain ⟨j, hj, hb⟩ := h
  have : ((Finset.range total).filter fun i => testBitAt d startblk i) ⊂
      Finset.range total := by
    rw [Finset.ssubset_iff_of_subset (Finset.filter_subset _ _)]
    refine ⟨j, Finset.mem_range.mpr hj, ?_⟩
    rw [Finset.mem_filter]
    rintro ⟨-, hb2⟩
    rw [hb2] at hb
    simp at hb
  have := Finset.card_lt_card this
  rwa [Finset.card_range] at this

theorem exists_clear_of_bitCount_lt (d : Disk) (startblk total : Nat)
    (h : bitCount d startblk total < total) :
    ∃ j, j < total ∧ testBitAt d startblk j = false := by
  by_contra hc
  push_neg at hc
  have hall : (Finset.range total).filter
      (fun i => testBitAt d startblk i) = Finset.range total := by
    apply Finset.filter_true_of_mem
    intro j hj
    have := hc j (Finset.mem_range.mp hj)
    simpa [Bool.not_eq_false] using this
  rw [bitCount, hall, Finset.card_range] at h
  exact lt_irrefl _ h

/-! ### Scan lemmas -/

theorem bitmapScan_eq_none_iff (d : Disk) (startblk : Nat) :
    ∀ n i, bitmapScan d startblk i n = none ↔
      ∀ j, i ≤ j → j < i + n → testBitAt d startblk j = true := by
  intro n
  induction n with
  | zero => intro i; simp [bitmapScan]; omega
  | succ n ih =>
      intro i
      rw [bitmapScan]
      by_cases hb : testBitAt d startblk i
      · rw [if_pos hb, ih]
        constructor
        · intro h j hj1 hj2
          rcases Nat.eq_or_lt_of_le hj1 with rfl | hlt
          · exact hb
          · exact h j hlt (by omega)
        · intro h j hj1 hj2
          exact h j (by omega) (by omega)
      · rw [if_neg hb]
        simp only [reduceCtorEq, false_iff, not_forall]
        push_neg
        refine ⟨i, le_refl i, by omega, ?_⟩
        simp [hb]

theorem bitmapScan_some_spec (d : Disk) (startblk : Nat) :
    ∀ n i k, bitmapScan d startblk i n = some k →
      i ≤ k ∧ k < i + n ∧ testBitAt d startblk k = false ∧
        ∀ j, i ≤ j → j < k → testBitAt d startblk j = true := by
  intro n
  induction n with
  | zero => intro i k h; simp [bitmapScan] at h
  | succ n ih =>
      intro i k h
      rw [bitmapScan] at h
      by_cases hb : testBitAt d startblk i
      · rw [if_pos hb] at h
        obtain ⟨h1, h2, h3, h4⟩ := ih (i + 1) k h
        refine ⟨by omega, by omega, h3, ?_⟩
        intro j hj1 hj2
        rcases Nat.eq_or_lt_of_le hj1 with rfl | hlt
        · exact hb
        · exact h4 j (by omega) hj2
      · rw [if_neg hb] at h
        cases h
        refine ⟨le_refl i, by omega, by simpa using hb, ?_⟩
        intro j hj1 hj2
        omega

theorem bitmapScan_isSome_of_exists_clear (d : Disk) (startblk total : Nat)
    (h : ∃ j, j < total ∧ testBitAt d startblk j = false) :
    ∃ k, bitmapScan d startblk 0 total = some k := by
  cases hs : bitmapScan d startblk 0 total with
  | some k => exact ⟨k, rfl⟩
  | none =>
      rw [bitmapScan_eq_none_iff] at hs
      obtain ⟨j, hj, hb⟩ := h
      have := hs j (Nat.zero_le j) (by omega)
      rw [this] at hb
      exact absurd hb (by simp)

theorem bitmapScan_first (d : Disk) (startblk : Nat) :
    ∀ n i k, i ≤ k → k < i + n → testBitAt d startblk k = false →
      (∀ j, i ≤ j → j < k → testBitAt d startblk j = true) →
      bitmapScan d startblk i n = some k := by
  intro n
  induction n with
  | zero => intro i k h1 h2; omega
  | succ n ih =>
      intro i k h1 h2 h3 h4
      rw [bitmapScan]
      rcases Nat.eq_or_lt_of_le h1 with rfl | hlt
      · rw [if_neg (by simp [h3])]
      · rw [if_pos (h4 i (le_refl i) hlt)]
        exact ih (i + 1) k (by omega) (by omega) h3 (fun j hj1 hj2 => h4 j (by omega) hj2)

/-! ### Allocation / free step lemmas -/

theorem regionAlloc_success (startblk total : Nat) (d : Disk) (status : Int)
    (hinv : RegionInv startblk total d status) (hs : status ≠ 0) :
    ∃ k, bitmapScan d startblk 0 total = some k ∧
      regionAlloc startblk total d status =
        (0, some k, status - 1, bitmapSetUnit d startblk k) ∧
      k < total ∧ testBitAt d startblk k = false := by
  have hcount : bitCount d startblk total < total := by
    have hle := bitCount_le d startblk total
    rw [RegionInv] at hinv
    rcases Nat.eq_or_lt_of_le hle with heq | hlt
    · exfalso; apply hs; omega
    · exact hlt
  obtain ⟨k, hk⟩ := bitmapScan_isSome_of_exists_clear d startblk total
    (exists_clear_of_bitCount_lt d startblk total hcount)
  obtain ⟨-, hk2, hk3, -⟩ := bitmapScan_some_spec d startblk total 0 k hk
  refine ⟨k, hk, ?_, by omega, hk3⟩
  rw [regionAlloc, if_neg hs, numbfs_bitmap_alloc, hk]

theorem regionAlloc_preserves_inv (startblk total : Nat) (d : Disk) (status : Int)
    (hinv : RegionInv startblk total d status) :
    RegionInv startblk total (regionAlloc startblk total d status).2.2.2
      (regionAlloc startblk total d status).2.2.1 := by
  by_cases hs : status = 0
  · rw [regionAlloc, if_pos hs]
    exact hinv
  · obtain ⟨k, -, heq, hk2, hk3⟩ := regionAlloc_success startblk total d status hinv hs
    rw [heq]
    rw [RegionInv] at hinv ⊢
    rw [bitCount_setUnit d startblk total k hk2 hk3]
    push_cast
    omega

theorem regionFree_success (startblk total : Nat) (d : Disk) (status : Int)
    (i : Nat) (hi : i < total) (hset : testBitAt d startblk i = true) :
    regionFree startblk total d status i =
      some (0, status + 1, bitmapClearUnit d startblk i) := by
  rw [regionFree, if_neg (by omega), numbfs_bitmap_free, numbfs_bitmap_free_io]
  rw [if_neg (by simp), if_neg (by simp [hset])]
  simp

theorem regionFree_preserves_inv (startblk total : Nat) (d : Disk) (status : Int)
    (i : Nat) (r : Int) (s2 : Int) (d2 : Disk)
    (hinv : RegionInv startblk total d status)
    (h : regionFree startblk total d status i = some (r, s2, d2)) :
    RegionInv startblk total d2 s2 := by
  rw [regionFree] at h
  by_cases hi : total ≤ i
  · rw [if_pos hi] at h
    cases h
    exact hinv
  · rw [if_neg hi, numbfs_bitmap_free, numbfs_bitmap_free_io, if_neg (by simp)] at h
    by_cases hb : testBitAt d startblk i = false
    · rw [if_pos hb] at h
      cases h
    · rw [if_neg hb] at h
      simp only [Bool.if_false_left, Option.some.injEq, Prod.mk.injEq] at h
      obtain ⟨-, hs2, hd2⟩ := h
      rw [RegionInv] at hinv ⊢
      subst hs2 hd2
      have := bitCount_clearUnit d startblk total i (by omega)
        (by revert hb; cases testBitAt d startblk i <;> simp)
      push_cast
      omega

/-! ### Allocation / free sequence lemmas -/

theorem regionAllocN_spec (startblk total : Nat) :
    ∀ (N : Nat) (d : Disk) (status : Int),
      RegionInv startblk total d status → (N : Int) ≤ status →
      RegionInv startblk total (regionAllocN startblk total d status N).2.2
          (regionAllocN startblk total d status N).2.1 ∧
        AllocChainInv startblk total d status N ∧
        (regionAllocN startblk total d status N).1.Nodup ∧
        (∀ i ∈ (regionAllocN startblk total d status N).1,
          i < total ∧ testBitAt d startblk i = false ∧
            testBitAt (regionAllocN startblk total d status N).2.2 startblk i = true) ∧
        (∀ j, testBitAt d startblk j = true →
          testBitAt (regionAllocN startblk total d status N).2.2 startblk j = true) := by
  intro N
  induction N with
  | zero =>
      intro d status hinv hN
      refine ⟨hinv, trivial, List.nodup_nil, ?_, fun j h => h⟩
      intro i hi
      simp [regionAllocN] at hi
  | succ N ih =>
      intro d status hinv hN
      have hs : status ≠ 0 := by omega
      obtain ⟨k, hscan, heq, hk2, hk3⟩ :=
        regionAlloc_success startblk total d status hinv hs
      have hinv1 : RegionInv startblk total (bitmapSetUnit d startblk k) (status - 1) := by
        have := regionAlloc_preserves_inv startblk total d status hinv
        rw [heq] at this
        exact this
      have hN1 : (N : Int) ≤ status - 1 := by push_cast at hN ⊢; omega
      obtain ⟨ihInv, ihChain, ihNodup, ihMem, ihMono⟩ :=
        ih (bitmapSetUnit d startblk k) (status - 1) hinv1 hN1
      have hunf : regionAllocN startblk total d status (N + 1) =
          (k :: (regionAllocN startblk total (bitmapSetUnit d startblk k) (status - 1) N).1,
            (regionAllocN startblk total (bitmapSetUnit d startblk k) (status - 1) N).2) := by
        rw [regionAllocN, heq]
        rfl
      have hkset : testBitAt (bitmapSetUnit d startblk k) startblk k = true := by
        rw [testBitAt_bitmapSetUnit]
        simp
      constructor
      · rw [hunf]; exact ihInv
      constructor
      · rw [AllocChainInv, heq]
        exact ⟨hinv1, ihChain⟩
      constructor
      · rw [hunf]
        refine List.nodup_cons.mpr ⟨?_, ihNodup⟩
        intro hkmem
        have := (ihMem k hkmem).2.1
        rw [hkset] at this
        simp at this
      constructor
      · rw [hunf]
        intro i hi
        rcases List.mem_cons.mp hi with rfl | hmem
        · exact ⟨hk2, hk3, ihMono i hkset⟩
        · obtain ⟨m1, m2, m3⟩ := ihMem i hmem
          refine ⟨m1, ?_, m3⟩
          rw [testBitAt_bitmapSetUnit] at m2
          revert m2
          by_cases hik : i = k <;> simp [hik]
      · rw [hunf]
        intro j hj
        apply ihMono
        rw [testBitAt_bitmapSetUnit, hj]
        simp

theorem freeChainInv_of_set (startblk total : Nat) :
    ∀ (l : List Nat) (d : Disk) (status : Int),
      RegionInv startblk total d status → l.Nodup →
      (∀ i ∈ l, i < total ∧ testBitAt d startblk i = true) →
      FreeChainInv startblk total d status l := by
  intro l
  induction l with
  | nil => intro d status _ _ _; trivial
  | cons i t ih =>
      intro d status hinv hnd hmem
      obtain ⟨hi, hset⟩ := hmem i (List.mem_cons_self i t)
      have heq := regionFree_success startblk total d status i hi hset
      refine ⟨status + 1, bitmapClearUnit d startblk i, heq, ?_, ?_⟩
      · exact regionFree_preserves_inv startblk total d status i 0 (status + 1)
          (bitmapClearUnit d startblk i) hinv heq
      · apply ih
        · exact regionFree_preserves_inv startblk total d status i 0 (status + 1)
            (bitmapClearUnit d startblk i) hinv heq
        · exact (List.nodup_cons.mp hnd).2
        · intro j hj
          obtain ⟨hj1, hj2⟩ := hmem j (List.mem_cons_of_mem i hj)
          refine ⟨hj1, ?_⟩
          rw [testBitAt_bitmapClearUnit, hj2]
          have : j ≠ i := by
            intro h
            exact (List.nodup_cons.mp hnd).1 (h ▸ hj)
          simp [this]

theorem regionAllocN_first_fit (startblk total : Nat) :
    ∀ (N c : Nat) (d : Disk) (status : Int),
      (∀ j, j < total → testBitAt d startblk j = decide (j < c)) →
      status = (total : Int) - (c : Int) →
      N + c ≤ total →
      (regionAllocN startblk total d status N).1 = List.range' c N := by
  intro N
  induction N with
  | zero => intro c d status _ _ _; rfl
  | succ N ih =>
      intro c d status hbits hstatus hle
      have hc : c < total := by omega
      have hs : status ≠ 0 := by omega
      have hscan : bitmapScan d startblk 0 total = some c := by
        apply bitmapScan_first d startblk total 0 c (Nat.zero_le c) (by omega)
        · rw [hbits c hc]; simp
        · intro j _ hj2
          rw [hbits j (by omega)]
          simp [hj2]
      have halloc : regionAlloc startblk total d status =
          (0, some c, status - 1, bitmapSetUnit d startblk c) := by
        rw [regionAlloc, if_neg hs, numbfs_bitmap_alloc, hscan]
      have hbits2 : ∀ j, j < total →
          testBitAt (bitmapSetUnit d startblk c) startblk j = decide (j < c + 1) := by
        intro j hj
        rw [testBitAt_bitmapSetUnit, hbits j hj]
        by_cases hjc : j = c
        · simp [hjc]
        · have : (j < c) = (j < c + 1) := by
            apply propext; constructor <;> intro h <;> omega
          simp [hjc, this]
      have := ih (c + 1) (bitmapSetUnit d startblk c) (status - 1) hbits2
        (by push_cast; omega) (by omega)
      rw [regionAllocN, halloc]
      simp only [Option.toList]
      rw [this]
      rfl

/-! ### Wrapper-level invariant lemmas -/

theorem numbfs_alloc_block_preserves_inv (st : FsState)
    (hinv : BlockBitmapInv st) : BlockBitmapInv (numbfs_alloc_block st).2.2 := by
  have hr := regionAlloc_preserves_inv st.bbitmap_start st.data_blocks st.disk
    st.free_blocks hinv
  by_cases h : st.free_blocks = 0
  · rw [numbfs_alloc_block, if_pos h]
    exact hinv
  · rw [numbfs_alloc_block, if_neg h]
    rw [regionAlloc, if_neg h] at hr
    exact hr

theorem numbfs_alloc_inode_preserves_inv (st : FsState)
    (hinv : InodeBitmapInv st) : InodeBitmapInv (numbfs_alloc_inode st).2.2 := by
  have hr := regionAlloc_preserves_inv st.ibitmap_start st.total_inodes st.disk
    st.free_inodes hinv
  by_cases h : st.free_inodes = 0
  · rw [numbfs_alloc_inode, if_pos h]
    exact hinv
  · rw [numbfs_alloc_inode, if_neg h]
    rw [regionAlloc, if_neg h] at hr
    exact hr

theorem numbfs_free_block_preserves_inv (st : FsState) (b : Nat) (r : Int)
    (st2 : FsState) (hinv : BlockBitmapInv st)
    (h : numbfs_free_block st b = some (r, st2)) : BlockBitmapInv st2 := by
  rw [numbfs_free_block] at h
  by_cases hb : st.data_blocks ≤ b
  · rw [if_pos hb] at h
    cases h
    exact hinv
  · rw [if_neg hb] at h
    have hreg : regionFree st.bbitmap_start st.data_blocks st.disk st.free_blocks b =
        numbfs_bitmap_free st.disk st.bbitmap_start b st.free_blocks := by
      rw [regionFree, if_neg hb]
    cases hfb : numbfs_bitmap_free st.disk st.bbitmap_start b st.free_blocks with
    | none => rw [hfb] at h; cases h
    | some v =>
        rw [hfb] at h
        obtain ⟨r2, s2, d2⟩ := v
        simp only [Option.some.injEq, Prod.mk.injEq] at h
        obtain ⟨-, hst2⟩ := h
        have := regionFree_preserves_inv st.bbitmap_start st.data_blocks st.disk
          st.free_blocks b r2 s2 d2 hinv (by rw [hreg, hfb])
        rw [BlockBitmapInv, ← hst2]
        exact this

theorem numbfs_free_inode_preserves_inv (st : FsState) (n : Nat) (r : Int)
    (st2 : FsState) (hinv : InodeBitmapInv st)
    (h : numbfs_free_inode st n = some (r, st2)) : InodeBitmapInv st2 := by
  rw [numbfs_free_inode] at h
  by_cases hb : st.total_inodes ≤ n
  · rw [if_pos hb] at h
    cases h
    exact hinv
  · rw [if_neg hb] at h
    have hreg : regionFree st.ibitmap_start st.total_inodes st.disk st.free_inodes n =
        numbfs_bitmap_free st.disk st.ibitmap_start n st.free_inodes := by
      rw [regionFree, if_neg hb]
    cases hfb : numbfs_bitmap_free st.disk st.ibitmap_start n st.free_inodes with
    | none => rw [hfb] at h; cases h
    | some v =>
        rw [hfb] at h
        obtain ⟨r2, s2, d2⟩ := v
        simp only [Option.some.injEq, Prod.mk.injEq] at h
        obtain ⟨-, hst2⟩ := h
        have := regionFree_preserves_inv st.ibitmap_start st.total_inodes st.disk
          st.free_inodes n r2 s2 d2 hinv (by rw [hreg, hfb])
        rw [InodeBitmapInv, ← hst2]
        exact this

/-! ### Claim theorems -/

/-- C2: starting from a consistent state (free counter = unit count minus
popcount of the bitmap), every outcome of numbfs_alloc_block /
numbfs_alloc_inode and every completed (non-aborting) numbfs_free_block /
numbfs_free_inode preserves `free_count == unit_count - popcount(bitmap)`;
and for any sequence of N allocations on a region with at least N free
units, followed by freeing the allocated units in any order, every free
succeeds and the invariant holds after every step of both phases. -/
theorem numbfs_alloc_free_preserves_free_count :
    (∀ st : FsState, BlockBitmapInv st →
      BlockBitmapInv (numbfs_alloc_block st).2.2) ∧
    (∀ (st : FsState) (b : Nat) (r : Int) (st2 : FsState), BlockBitmapInv st →
      numbfs_free_block st b = some (r, st2) → BlockBitmapInv st2) ∧
    (∀ st : FsState, InodeBitmapInv st →
      InodeBitmapInv (numbfs_alloc_inode st).2.2) ∧
    (∀ (st : FsState) (n : Nat) (r : Int) (st2 : FsState), InodeBitmapInv st →
      numbfs_free_inode st n = some (r, st2) → InodeBitmapInv st2) ∧
    (∀ (startblk total : Nat) (d : Disk) (status : Int) (N : Nat),
      RegionInv startblk total d status → (N : Int) ≤ status →
      AllocChainInv startblk total d status N ∧
      ∀ l : List Nat, l.Perm (regionAllocN startblk total d status N).1 →
        FreeChainInv startblk total (regionAllocN startblk total d status N).2.2
          (regionAllocN startblk total d status N).2.1 l) := by
  refine ⟨numbfs_alloc_block_preserves_inv, numbfs_free_block_preserves_inv,
    numbfs_alloc_inode_preserves_inv, numbfs_free_inode_preserves_inv, ?_⟩
  intro startblk total d status N hinv hN
  obtain ⟨hInvF, hChain, hNodup, hMem, -⟩ :=
    regionAllocN_spec startblk total N d status hinv hN
  refine ⟨hChain, ?_⟩
  intro l hperm
  apply freeChainInv_of_set startblk total l _ _ hInvF
  · exact hperm.nodup_iff.mpr hNodup
  · intro i hi
    have := hMem i (hperm.mem_iff.mp hi)
    exact ⟨this.1, this.2.2⟩

/-- C2 witness: on the small all-zero example state both wrapper steps
preserve the invariant, and a 2-allocation / reversed-2-free round on its
block-bitmap region keeps the invariant at every step. -/
theorem numbfs_alloc_free_preserves_free_count_witness :
    BlockBitmapInv (numbfs_alloc_block sampleSt).2.2 ∧
      FreeChainInv 4 8 (regionAllocN 4 8 sampleDisk 8 2).2.2
        (regionAllocN 4 8 sampleDisk 8 2).2.1 [1, 0] :=
  ⟨numbfs_alloc_free_preserves_free_count.1 sampleSt (by decide),
    (numbfs_alloc_free_preserves_free_count.2.2.2.2 4 8 sampleDisk 8 2
      (by decide) (by decide)).2 [1, 0] (by decide)⟩

/-- C6: on an empty bitmap region (all unit bits clear) whose free counter
equals its unit count, N successive allocations (N ≤ unit count) through
numbfs_bitmap_alloc return the unit indices 0, 1, ..., N-1 in that order:
the allocator is first-fit by ascending index. -/
theorem numbfs_bitmap_alloc_first_fit (startblk total N : Nat) (d : Disk)
    (hempty : ∀ j, j < total → testBitAt d startblk j = false)
    (hN : N ≤ total) :
    (regionAllocN startblk total d (total : Int) N).1 = List.range N := by
  rw [List.range_eq_range']
  apply regionAllocN_first_fit startblk total N 0 d (total : Int)
  · intro j hj
    rw [hempty j hj]
    simp
  · simp
  · omega

/-- C6 witness: three allocations on the empty 8-unit example region
return 0, 1, 2. -/
theorem numbfs_bitmap_alloc_first_fit_witness :
    (regionAllocN 4 8 sampleDisk 8 3).1 = List.range 3 :=
  numbfs_bitmap_alloc_first_fit 4 8 3 sampleDisk (by decide) (by decide)

theorem blkaddr_range_err (st : FsState) (ino : InodeInfo) (pos : Nat)
    (alloc : Bool) (h : NUMBFS_NUM_DATA_ENTRY ≤ pos / BYTES_PER_BLOCK) :
    numbfs_inode_blkaddr st ino pos alloc false = some (-E2BIG, st, ino) := by
  rw [numbfs_inode_blkaddr, if_neg (by simp), if_pos h]

/-- C8: for any byte position whose logical block index pos / block_size
is at least 10 (the direct-pointer count), numbfs_inode_blkaddr without
the extent flag fails with -E2BIG for both values of the allocation flag,
leaving the superblock state and the inode mirror (so also its pointer
slots) untouched and allocating nothing. -/
theorem numbfs_inode_blkaddr_range_error (st : FsState) (ino : InodeInfo)
    (pos : Nat) (alloc : Bool)
    (h : NUMBFS_NUM_DATA_ENTRY ≤ pos / BYTES_PER_BLOCK) :
    numbfs_inode_blkaddr st ino pos alloc false = some (-E2BIG, st, ino) :=
  blkaddr_range_err st ino pos alloc h

/-- C8 witness: position 5120 (logical block 10) fails with -E2BIG for
both allocation flags on the concrete example state. -/
theorem numbfs_inode_blkaddr_range_error_witness :
    numbfs_inode_blkaddr sampleSt holeInode 5120 true false =
        some (-E2BIG, sampleSt, holeInode) ∧
      numbfs_inode_blkaddr sampleSt holeInode 5120 false false =
        some (-E2BIG, sampleSt, holeInode) :=
  ⟨numbfs_inode_blkaddr_range_error sampleSt holeInode 5120 true (by decide),
    numbfs_inode_blkaddr_range_error sampleSt holeInode 5120 false (by decide)⟩

/-- C10: numbfs_pwrite_inode grows the in-memory mirror's size before the
logical-block range check: a single-block request whose logical index is
at least 10 returns -E2BIG while the returned mirror's size has already
been set to max(size, offset+len) and is not restored. -/
theorem numbfs_pwrite_inode_size_grown_on_range_error (st : FsState)
    (ino : InodeInfo) (buf : Block) (offset len : Nat)
    (h1 : offset % BYTES_PER_BLOCK + len ≤ BYTES_PER_BLOCK)
    (h2 : NUMBFS_NUM_DATA_ENTRY ≤ offset / BYTES_PER_BLOCK) :
    numbfs_pwrite_inode st ino buf offset len =
      some (-E2BIG, st, { ino with size := max ino.size (offset + len) }) := by
  rw [numbfs_pwrite_inode]
  simp only [if_neg (by omega : ¬ BYTES_PER_BLOCK < offset % BYTES_PER_BLOCK + len)]
  rw [blkaddr_range_err st _ offset true h2]
  norm_num [E2BIG]

/-- C10 witness: on the concrete example state, a write at offset 5120 of
length 1 fails with -E2BIG and the returned mirror's size is 5121. -/
theorem numbfs_pwrite_inode_size_grown_on_range_error_witness :
    numbfs_pwrite_inode sampleSt holeInode garbageBuf 5120 1 =
      some (-E2BIG, sampleSt, { holeInode with size := max holeInode.size 5121 }) :=
  numbfs_pwrite_inode_size_grown_on_range_error sampleSt holeInode garbageBuf
    5120 1 (by decide) (by decide)

/-- C1 (code bug): a hole read of length 1 at offset 0 of an all-hole
inode succeeds (returns 0) but the output buffer's first byte is 1, not 0:
the hole path executes memset(buf, len, BYTES_PER_BLOCK), so the buffer is
filled with the byte len mod 256 instead of zeros.  (The repository's own
test only reads holes with len = 512, for which len mod 256 = 0, so the
bug is invisible there.) -/
theorem numbfs_pread_inode_hole_not_zero_filled :
    (numbfs_pread_inode sampleSt holeInode garbageBuf 0 1).map Prod.fst =
        some 0 ∧
      (numbfs_pread_inode sampleSt holeInode garbageBuf 0 1).map
          (fun r => r.2 0) = some 1 ∧
      ¬ (numbfs_pread_inode sampleSt holeInode garbageBuf 0 1).map
          (fun r => r.2 0) = some 0 := by
  refine ⟨by decide, by decide, by decide⟩

/-- C7 (code bug): numbfs_bitmap_free with the bitmap-block write-back
transfer failing still returns 0 (success) and increments the free
counter: the C code assigns the numbfs_write_block result to err and then
ignores it. -/
theorem numbfs_bitmap_free_swallows_write_error :
    numbfs_bitmap_free_io false true oneBitDisk 4 0 8 = some (0, 9, oneBitDisk) := by
  rfl

/-- C5 counterexample: the device size 1540 with 8 inodes passes the
format tool's undersized-device validation, yet the computed geometry has
a negative data-block count and no strictly positive gap between the block
bitmap start and the data start. -/
theorem mkfs_geometry_counterexample :
    mkfs_accepted 1540 8 ∧ mkfs_data_blocks 1540 8 < 0 ∧
      ¬ mkfs_bbitmap_start 8 < mkfs_data_start 1540 8 := by
  decide

theorem div_round_up_eq_ediv (a d : Int) (ha : 0 ≤ a) (hd : 0 < d) :
    DIV_ROUND_UP a d = (a + d - 1) / d := by
  unfold DIV_ROUND_UP
  exact Int.tdiv_eq_ediv (by omega) (by omega)

/-- C5 (amended): for every accepted device size and inode count for which
the device additionally leaves at least 2 blocks after the block-bitmap
start (mkfs_remain ≥ 2), the computed geometry satisfies
ibitmap_start < inode_start < bbitmap_start < data_start, a nonnegative
data-block count, and data_start + data_blocks ≤ total device blocks. -/
theorem mkfs_geometry_invariants (size n : Int) (hacc : mkfs_accepted size n)
    (hrem : 2 ≤ mkfs_remain size n) :
    mkfs_ibitmap_start < mkfs_inode_start n ∧
      mkfs_inode_start n < mkfs_bbitmap_start n ∧
      mkfs_bbitmap_start n < mkfs_data_start size n ∧
      0 ≤ mkfs_data_blocks size n ∧
      mkfs_data_start size n + mkfs_data_blocks size n ≤ mkfs_total_blocks size := by
  obtain ⟨hn, -, -⟩ := hacc
  have hA : DIV_ROUND_UP n 8 = (n + 7) / 8 := by
    rw [div_round_up_eq_ediv n 8 (by omega) (by omega)]
    omega
  have hA1 : 1 ≤ (n + 7) / 8 := by omega
  have hB : DIV_ROUND_UP (DIV_ROUND_UP n 8) 512 = ((n + 7) / 8 + 511) / 512 := by
    rw [hA, div_round_up_eq_ediv _ 512 (by omega) (by omega)]
    omega
  have hB1 : 1 ≤ ((n + 7) / 8 + 511) / 512 := by omega
  have hC : DIV_ROUND_UP (n * 64) 512 = (n * 64 + 511) / 512 := by
    rw [div_round_up_eq_ediv _ 512 (by omega) (by omega)]
    omega
  have hC1 : 1 ≤ (n * 64 + 511) / 512 := by omega
  have hg1 : mkfs_ibitmap_start < mkfs_inode_start n := by
    rw [mkfs_inode_start, hB, mkfs_ibitmap_start]
    omega
  have hg2 : mkfs_inode_start n < mkfs_bbitmap_start n := by
    rw [mkfs_bbitmap_start, hC]
    omega
  set r := mkfs_remain size n with hrdef
  have hD : DIV_ROUND_UP (DIV_ROUND_UP r 8) 512 = ((r + 7) / 8 + 511) / 512 := by
    rw [div_round_up_eq_ediv r 8 (by omega) (by omega)]
    have : 0 ≤ (r + 8 - 1) / 8 := by omega
    rw [div_round_up_eq_ediv _ 512 (by omega) (by omega)]
    omega
  have hdb : mkfs_data_blocks size n = r - ((r + 7) / 8 + 511) / 512 := by
    rw [mkfs_data_blocks, ← hrdef, hD]
  have hdb1 : 1 ≤ mkfs_data_blocks size n := by
    rw [hdb]
    omega
  have hE : DIV_ROUND_UP (DIV_ROUND_UP (mkfs_data_blocks size n) 8) 512 =
      ((mkfs_data_blocks size n + 7) / 8 + 511) / 512 := by
    rw [div_round_up_eq_ediv _ 8 (by omega) (by omega)]
    have : 0 ≤ (mkfs_data_blocks size n + 8 - 1) / 8 := by omega
    rw [div_round_up_eq_ediv _ 512 (by omega) (by omega)]
    omega
  have hg3 : mkfs_bbitmap_start n < mkfs_data_start size n := by
    rw [mkfs_data_start, hE]
    have : 1 ≤ ((mkfs_data_blocks size n + 7) / 8 + 511) / 512 := by omega
    omega
  have htot : mkfs_total_blocks size = r + mkfs_bbitmap_start n + 1 := by
    rw [hrdef, mkfs_remain]
    ring
  have hg5 : mkfs_data_start size n + mkfs_data_blocks size n ≤
      mkfs_total_blocks size := by
    rw [mkfs_data_start, hE, htot, hdb]
    omega
  exact ⟨hg1, hg2, hg3, by omega, hg5⟩

/-- C5 witness: a 10 MiB device with 4096 inodes is accepted, leaves more
than 2 blocks of remainder, and its geometry satisfies all the zone
invariants. -/
theorem mkfs_geometry_invariants_witness :
    mkfs_bbitmap_start 4096 < mkfs_data_start (10 * 1024 * 1024) 4096 ∧
      mkfs_data_start (10 * 1024 * 1024) 4096 +
          mkfs_data_blocks (10 * 1024 * 1024) 4096 ≤
        mkfs_total_blocks (10 * 1024 * 1024) :=
  ⟨(mkfs_geometry_invariants (10 * 1024 * 1024) 4096 (by decide) (by decide)).2.2.1,
    (mkfs_geometry_invariants (10 * 1024 * 1024) 4096 (by decide) (by decide)).2.2.2.2⟩

/-- C4: the on-disk superblock record is exactly 128 bytes: in order, the
little-endian 4-byte fields magic, feature, ibitmap_start, inode_start,
bbitmap_start, data_start, total_inodes, free_inodes, data_blocks,
free_blocks at offsets 0,4,...,36, followed by reserved padding filling
the record to 128 bytes; and the build-time layout check
numbfs_check_ondisk (superblock 128, inode 64, dirent 64) holds. -/
theorem numbfs_super_block_layout :
    numbfs_check_ondisk ∧
      sizeof_numbfs_super_block = 128 ∧
      layoutOffsets 0 numbfs_super_block_field_sizes =
        [0, 4, 8, 12, 16, 20, 24, 28, 32, 36, 40] ∧
      (∀ (sb : NumbfsSuperBlock) (j : Nat), j < 4 →
        encode_numbfs_super_block sb (0 + j) = le32n sb.s_magic j ∧
          encode_numbfs_super_block sb (4 + j) = le32n sb.s_feature j ∧
          encode_numbfs_super_block sb (8 + j) = le32n sb.s_ibitmap_start j ∧
          encode_numbfs_super_block sb (12 + j) = le32n sb.s_inode_start j ∧
          encode_numbfs_super_block sb (16 + j) = le32n sb.s_bbitmap_start j ∧
          encode_numbfs_super_block sb (20 + j) = le32n sb.s_data_start j ∧
          encode_numbfs_super_block sb (24 + j) = le32n sb.s_total_inodes j ∧
          encode_numbfs_super_block sb (28 + j) = le32n sb.s_free_inodes j ∧
          encode_numbfs_super_block sb (32 + j) = le32n sb.s_data_blocks j ∧
          encode_numbfs_super_block sb (36 + j) = le32n sb.s_free_blocks j) ∧
      (∀ (sb : NumbfsSuperBlock) (i : Nat), 40 ≤ i → i < 128 →
        encode_numbfs_super_block sb i = 0) := by
  refine ⟨by decide, by decide, by decide, ?_, ?_⟩
  · intro sb j hj
    interval_cases j <;>
      refine ⟨?_, ?_, ?_, ?_, ?_, ?_, ?_, ?_, ?_, ?_⟩ <;>
        simp [encode_numbfs_super_block]
  · intro sb i h1 h2
    simp only [encode_numbfs_super_block]
    iterate 10 rw [if_neg (by omega)]

/-- C4 witness: on the example superblock, byte 24 is the low byte of
total_inodes, byte 36 the low byte of free_blocks, and byte 100 (inside
the reserved padding) is 0. -/
theorem numbfs_super_block_layout_witness :
    encode_numbfs_super_block exampleSuperBlock (24 + 0) =
        le32n exampleSuperBlock.s_total_inodes 0 ∧
      encode_numbfs_super_block exampleSuperBlock (36 + 0) =
        le32n exampleSuperBlock.s_free_blocks 0 ∧
      encode_numbfs_super_block exampleSuperBlock 100 = 0 :=
  ⟨(numbfs_super_block_layout.2.2.2.1 exampleSuperBlock 0 (by decide)).2.2.2.2.2.2.1,
    (numbfs_super_block_layout.2.2.2.1 exampleSuperBlock 0 (by decide)).2.2.2.2.2.2.2.2.2,
    numbfs_super_block_layout.2.2.2.2 exampleSuperBlock 100 (by decide) (by decide)⟩

/-! ### Path characterizations of the translator and the write path -/

theorem numbfs_alloc_block_scan_some (st : FsState) (hfree : st.free_blocks ≠ 0)
    (k : Nat) (hscan : bitmapScan st.disk st.bbitmap_start 0 st.data_blocks = some k) :
    numbfs_alloc_block st = (0, some k,
      { st with disk := bitmapSetUnit st.disk st.bbitmap_start k,
                free_blocks := st.free_blocks - 1 }) := by
  rw [numbfs_alloc_block, if_neg hfree]
  simp only [numbfs_bitmap_alloc, hscan]

theorem blkaddr_noalloc (st : FsState) (ino : InodeInfo) (pos : Nat)
    (hidx : pos / BYTES_PER_BLOCK < NUMBFS_NUM_DATA_ENTRY) :
    numbfs_inode_blkaddr st ino pos false false =
      some (ino.data (pos / BYTES_PER_BLOCK), st, ino) := by
  rw [numbfs_inode_blkaddr, if_neg (by simp), if_neg (by omega),
    if_neg (by rintro ⟨h, -⟩; cases h)]

theorem blkaddr_alloc_nohole (st : FsState) (ino : InodeInfo) (pos : Nat)
    (hidx : pos / BYTES_PER_BLOCK < NUMBFS_NUM_DATA_ENTRY)
    (hnothole : ino.data (pos / BYTES_PER_BLOCK) ≠ NUMBFS_HOLE) :
    numbfs_inode_blkaddr st ino pos true false =
      some (ino.data (pos / BYTES_PER_BLOCK), st, ino) := by
  rw [numbfs_inode_blkaddr, if_neg (by simp), if_neg (by omega),
    if_neg (by rintro ⟨-, h⟩; exact hnothole h)]

theorem blkaddr_alloc_hole (st : FsState) (ino : InodeInfo) (pos : Nat)
    (hidx : pos / BYTES_PER_BLOCK < NUMBFS_NUM_DATA_ENTRY)
    (hhole : ino.data (pos / BYTES_PER_BLOCK) = NUMBFS_HOLE)
    (hfree : st.free_blocks ≠ 0)
    (k : Nat) (hscan : bitmapScan st.disk st.bbitmap_start 0 st.data_blocks = some k) :
    numbfs_inode_blkaddr st ino pos true false =
      some ((k : Int),
        { st with
            disk := diskWrite (bitmapSetUnit st.disk st.bbitmap_start k)
              (st.data_start + k) zeroBlock,
            free_blocks := st.free_blocks - 1 },
        { ino with data := fun j =>
            if j = pos / BYTES_PER_BLOCK then (k : Int) else ino.data j }) := by
  rw [numbfs_inode_blkaddr, if_neg (by simp), if_neg (by omega),
    if_pos ⟨rfl, hhole⟩, numbfs_alloc_block_scan_some st hfree k hscan]
  rfl

theorem blkaddr_alloc_hole_nomem (st : FsState) (ino : InodeInfo) (pos : Nat)
    (hidx : pos / BYTES_PER_BLOCK < NUMBFS_NUM_DATA_ENTRY)
    (hhole : ino.data (pos / BYTES_PER_BLOCK) = NUMBFS_HOLE)
    (hfree : st.free_blocks = 0) :
    numbfs_inode_blkaddr st ino pos true false = some (-ENOMEM, st, ino) := by
  rw [numbfs_inode_blkaddr, if_neg (by simp), if_neg (by omega),
    if_pos ⟨rfl, hhole⟩, numbfs_alloc_block, if_pos hfree]
  rw [if_pos (by unfold ENOMEM; omega : (-ENOMEM : Int) ≠ 0)]

theorem blkaddr_alloc_hole_noscan (st : FsState) (ino : InodeInfo) (pos : Nat)
    (hidx : pos / BYTES_PER_BLOCK < NUMBFS_NUM_DATA_ENTRY)
    (hhole : ino.data (pos / BYTES_PER_BLOCK) = NUMBFS_HOLE)
    (hfree : st.free_blocks ≠ 0)
    (hscan : bitmapScan st.disk st.bbitmap_start 0 st.data_blocks = none) :
    numbfs_inode_blkaddr st ino pos true false = none := by
  rw [numbfs_inode_blkaddr, if_neg (by simp), if_neg (by omega),
    if_pos ⟨rfl, hhole⟩, numbfs_alloc_block, if_neg hfree]
  simp only [numbfs_bitmap_alloc, hscan]
  rw [if_neg (by simp)]

theorem diskWrite_self (d : Disk) (b : Nat) (blk : Block) :
    diskWrite d b blk b = blk := by
  simp [diskWrite]

theorem diskWrite_other (d : Disk) (b : Nat) (blk : Block) (b2 : Nat) (h : b2 ≠ b) :
    diskWrite d b blk b2 = d b2 := by
  simp [diskWrite, h]

theorem dump_disk_other (st : FsState) (ino : InodeInfo) (b : Nat)
    (h : b ≠ numbfs_inode_blk st ino.nid) :
    (numbfs_dump_inode st ino).disk b = st.disk b := by
  rw [numbfs_dump_inode]
  exact diskWrite_other _ _ _ _ h

theorem pread_reads_block (st : FsState) (ino : InodeInfo) (rbuf : Block)
    (offset len : Nat) (t : Nat)
    (hspan : offset % BYTES_PER_BLOCK + len ≤ BYTES_PER_BLOCK)
    (hidx : offset / BYTES_PER_BLOCK < NUMBFS_NUM_DATA_ENTRY)
    (hdata : ino.data (offset / BYTES_PER_BLOCK) = (t : Int))
    (hsize : offset < ino.size) :
    numbfs_pread_inode st ino rbuf offset len =
      some (0, fun n => if n < len then
        st.disk (numbfs_data_blk st t) (offset % BYTES_PER_BLOCK + n)
      else rbuf n) := by
  rw [numbfs_pread_inode]
  simp only [if_neg (by omega : ¬ BYTES_PER_BLOCK < offset % BYTES_PER_BLOCK + len)]
  rw [blkaddr_noalloc st ino offset hidx]
  simp only [hdata]
  rw [if_neg (by rintro ⟨h, -⟩; omega)]
  rw [if_neg (by
    rintro (h | h)
    · omega
    · rw [NUMBFS_HOLE] at h; omega)]
  simp [Int.toNat_natCast]

/-- C3: after a successful single-block numbfs_pwrite_inode (1 ≤ len,
offset mod block_size + len ≤ block_size, logical index < 10, and the
inode's metadata block lying before the data zone), a numbfs_pread_inode
at the same offset and length on the resulting state returns exactly the
written bytes; and when the slot was already mapped (not a hole), every
byte of that physical block outside the written sub-range keeps its prior
contents. -/
theorem numbfs_pwrite_then_pread_roundtrip
    (st : FsState) (ino : InodeInfo) (wbuf rbuf : Block) (offset len : Nat)
    (st2 : FsState) (ino2 : InodeInfo)
    (hlen : 1 ≤ len)
    (hspan : offset % BYTES_PER_BLOCK + len ≤ BYTES_PER_BLOCK)
    (hidx : offset / BYTES_PER_BLOCK < NUMBFS_NUM_DATA_ENTRY)
    (hgeo : numbfs_inode_blk st ino.nid < st.data_start)
    (hw : numbfs_pwrite_inode st ino wbuf offset len = some (0, st2, ino2)) :
    (∃ rbuf2, numbfs_pread_inode st2 ino2 rbuf offset len = some (0, rbuf2) ∧
        ∀ i, i < len → rbuf2 i = wbuf i) ∧
      (ino.data (offset / BYTES_PER_BLOCK) ≠ NUMBFS_HOLE →
        ∀ m, ¬(offset % BYTES_PER_BLOCK ≤ m ∧ m < offset % BYTES_PER_BLOCK + len) →
          st2.disk (numbfs_data_blk st (ino.data (offset / BYTES_PER_BLOCK)).toNat) m =
            st.disk (numbfs_data_blk st (ino.data (offset / BYTES_PER_BLOCK)).toNat) m) := by
  have hspan2 : ¬ BYTES_PER_BLOCK < offset % BYTES_PER_BLOCK + len := by omega
  rw [numbfs_pwrite_inode] at hw
  simp only [if_neg hspan2] at hw
  by_cases hhole : ino.data (offset / BYTES_PER_BLOCK) = NUMBFS_HOLE
  · by_cases hfree : st.free_blocks = 0
    · rw [blkaddr_alloc_hole_nomem st { ino with size := max ino.size (offset + len) } offset hidx hhole hfree] at hw
      dsimp only at hw
      rw [if_pos (by unfold ENOMEM; omega : (-ENOMEM : Int) < 0)] at hw
      exfalso
      simp only [Option.some.injEq, Prod.mk.injEq] at hw
      have := hw.1
      unfold ENOMEM at this
      omega
    · cases hscan : bitmapScan st.disk st.bbitmap_start 0 st.data_blocks with
      | none =>
          rw [blkaddr_alloc_hole_noscan st { ino with size := max ino.size (offset + len) } offset hidx hhole hfree hscan] at hw
          dsimp only at hw
          cases hw
      | some k =>
          rw [blkaddr_alloc_hole st { ino with size := max ino.size (offset + len) } offset hidx hhole hfree k hscan] at hw
          dsimp only at hw
          rw [if_neg (by omega : ¬ ((k : Nat) : Int) < 0)] at hw
          simp only [Option.some.injEq, Prod.mk.injEq, true_and] at hw
          obtain ⟨hst2, hino2⟩ := hw
          constructor
          · subst hst2 hino2
            rw [pread_reads_block _ _ rbuf offset len k hspan hidx
              (by simp) (by
                show offset < max ino.size (offset + len)
                have := le_max_right ino.size (offset + len)
                omega)]
            refine ⟨_, rfl, ?_⟩
            intro i hi
            rw [if_pos hi]
            have hne : ¬ (st.data_start + k =
                st.inode_start + ino.nid / NUMBFS_NODES_PER_BLOCK) := by
              unfold numbfs_inode_blk at hgeo
              omega
            simp only [numbfs_dump_inode, numbfs_inode_blk, numbfs_data_blk, diskWrite,
              ite_apply, if_neg hne]
            simp only [Int.toNat_natCast, if_true]
            rw [if_pos (by omega : offset % BYTES_PER_BLOCK ≤ offset % BYTES_PER_BLOCK + i ∧
              offset % BYTES_PER_BLOCK + i < offset % BYTES_PER_BLOCK + len)]
            congr 1
            omega
          · intro hnh
            exact absurd hhole hnh
  · rw [blkaddr_alloc_nohole st { ino with size := max ino.size (offset + len) } offset hidx hhole] at hw
    dsimp only at hw
    by_cases ht : ino.data (offset / BYTES_PER_BLOCK) < 0
    · rw [if_pos ht] at hw
      exfalso
      simp only [Option.some.injEq, Prod.mk.injEq] at hw
      have := hw.1
      omega
    · rw [if_neg ht] at hw
      push_neg at ht
      simp only [Option.some.injEq, Prod.mk.injEq, true_and] at hw
      obtain ⟨hst2, hino2⟩ := hw
      have htn : ino.data (offset / BYTES_PER_BLOCK) =
          ((ino.data (offset / BYTES_PER_BLOCK)).toNat : Int) :=
        (Int.toNat_of_nonneg ht).symm
      constructor
      · subst hst2 hino2
        rw [pread_reads_block _ _ rbuf offset len
          (ino.data (offset / BYTES_PER_BLOCK)).toNat hspan hidx
          (by exact htn) (by
            show offset < max ino.size (offset + len)
            have := le_max_right ino.size (offset + len)
            omega)]
        refine ⟨_, rfl, ?_⟩
        intro i hi
        rw [if_pos hi]
        have hne : ¬ (st.data_start + (ino.data (offset / BYTES_PER_BLOCK)).toNat =
            st.inode_start + ino.nid / NUMBFS_NODES_PER_BLOCK) := by
          unfold numbfs_inode_blk at hgeo
          omega
        simp only [numbfs_dump_inode, numbfs_inode_blk, numbfs_data_blk, diskWrite,
          ite_apply, if_neg hne]
        simp only [if_true]
        rw [if_pos (by omega : offset % BYTES_PER_BLOCK ≤ offset % BYTES_PER_BLOCK + i ∧
          offset % BYTES_PER_BLOCK + i < offset % BYTES_PER_BLOCK + len)]
        congr 1
        omega
      · intro hnh m hm
        subst hst2
        have hne : ¬ (st.data_start + (ino.data (offset / BYTES_PER_BLOCK)).toNat =
            st.inode_start + ino.nid / NUMBFS_NODES_PER_BLOCK) := by
          unfold numbfs_inode_blk at hgeo
          omega
        simp only [numbfs_dump_inode, numbfs_inode_blk, numbfs_data_blk, diskWrite,
          ite_apply, if_neg hne]
        simp only [if_true]
        rw [if_neg hm]

/-- C3 witness: writing bytes 100..104 at offset 10 of a mapped slot on
the concrete example state, a read at the same offset and length returns
them, and byte 9 of the physical block keeps its prior contents. -/
theorem numbfs_pwrite_then_pread_roundtrip_witness :
    (numbfs_pread_inode c3st2 c3ino2 c3rbuf 10 5).map
        (fun r => (r.1, r.2 0, r.2 4)) = some ((0 : Int), 100, 104) ∧
      c3st2.disk (numbfs_data_blk sampleSt
          (mappedInode.data (10 / BYTES_PER_BLOCK)).toNat) 9 =
        sampleSt.disk (numbfs_data_blk sampleSt
          (mappedInode.data (10 / BYTES_PER_BLOCK)).toNat) 9 := by
  obtain ⟨⟨rbuf2, hp, hpt⟩, hout⟩ :=
    numbfs_pwrite_then_pread_roundtrip sampleSt mappedInode c3buf c3rbuf 10 5
      c3st2 c3ino2 (by decide) (by decide) (by decide) (by decide) (by rfl)
  constructor
  · rw [hp]
    have h0 := hpt 0 (by omega)
    have h4 := hpt 4 (by omega)
    simp [h0, h4, c3buf]
  · exact hout (by decide) 9 (by decide)

theorem numbfs_alloc_inode_scan_some (st : FsState) (hfree : st.free_inodes ≠ 0)
    (k : Nat) (hscan : bitmapScan st.disk st.ibitmap_start 0 st.total_inodes = some k) :
    numbfs_alloc_inode st = (0, some k,
      { st with disk := bitmapSetUnit st.disk st.ibitmap_start k,
                free_inodes := st.free_inodes - 1 }) := by
  rw [numbfs_alloc_inode, if_neg hfree]
  simp only [numbfs_bitmap_alloc, hscan]

theorem testBitAt_diskWrite_below (d : Disk) (b : Nat) (blk : Block)
    (startblk j : Nat) (h : b < startblk) :
    testBitAt (diskWrite d b blk) startblk j = testBitAt d startblk j := by
  unfold testBitAt
  rw [diskWrite_other]
  unfold numbfs_bmap_blk
  intro hc
  have := Nat.le_add_right startblk (j / NUMBFS_BLOCKS_PER_BLOCK)
  omega

theorem bitmapScan_congr (d d2 : Disk) (startblk : Nat)
    (h : ∀ j, testBitAt d startblk j = testBitAt d2 startblk j) :
    ∀ n i, bitmapScan d startblk i n = bitmapScan d2 startblk i n := by
  intro n
  induction n with
  | zero => intro i; rfl
  | succ n ih =>
      intro i
      rw [bitmapScan, bitmapScan, h i, ih (i + 1)]

theorem bitmapScan_bitmapSetUnit_below (d : Disk) (ib ni bb n i : Nat)
    (h : numbfs_bmap_blk ib ni < bb) :
    bitmapScan (bitmapSetUnit d ib ni) bb i n = bitmapScan d bb i n := by
  apply bitmapScan_congr
  intro j
  rw [bitmapSetUnit]
  exact testBitAt_diskWrite_below d _ _ bb j h
theorem inodeRecordByte_at2 (ino : InodeInfo) (old : Block) (base : Nat) :
    inodeRecordByte ino old base 2 = le16 ino.nlink 0 := rfl

theorem inodeRecordByte_at3 (ino : InodeInfo) (old : Block) (base : Nat) :
    inodeRecordByte ino old base 3 = le16 ino.nlink 1 := rfl

theorem inodeRecordByte_at8 (ino : InodeInfo) (old : Block) (base : Nat) :
    inodeRecordByte ino old base 8 = le32n ino.mode 0 := rfl

theorem inodeRecordByte_at9 (ino : InodeInfo) (old : Block) (base : Nat) :
    inodeRecordByte ino old base 9 = le32n ino.mode 1 := rfl

theorem inodeRecordByte_at10 (ino : InodeInfo) (old : Block) (base : Nat) :
    inodeRecordByte ino old base 10 = le32n ino.mode 2 := rfl

theorem inodeRecordByte_at11 (ino : InodeInfo) (old : Block) (base : Nat) :
    inodeRecordByte ino old base 11 = le32n ino.mode 3 := rfl

theorem inodeRecordByte_at12 (ino : InodeInfo) (old : Block) (base : Nat) :
    inodeRecordByte ino old base 12 = le32n ino.size 0 := rfl

theorem inodeRecordByte_at13 (ino : InodeInfo) (old : Block) (base : Nat) :
    inodeRecordByte ino old base 13 = le32n ino.size 1 := rfl

theorem inodeRecordByte_at14 (ino : InodeInfo) (old : Block) (base : Nat) :
    inodeRecordByte ino old base 14 = le32n ino.size 2 := rfl

theorem inodeRecordByte_at15 (ino : InodeInfo) (old : Block) (base : Nat) :
    inodeRecordByte ino old base 15 = le32n ino.size 3 := rfl


theorem dump_window (base j : Nat) (f g : Nat → Nat) :
    (if base ≤ base + j ∧ base + j < base + 64 then f (base + j - base) else g (base + j)) =
      if j < 64 then f j else g (base + j) := by
  by_cases h : j < 64
  · rw [if_pos ⟨Nat.le_add_right base j, by omega⟩, if_pos h]
    congr 1
    omega
  · rw [if_neg (by omega), if_neg h]

/-- C9: on a superblock state with a free inode and a free data block
(nonzero counters and a clear bit in each bitmap, found at ni and bi by
the first-fit scan), and with the touched bitmap block, inode block and
data block in properly ordered zones, numbfs_empty_dir succeeds and
returns the freshly allocated inode id ni; the directory's data block
holds exactly two 64-byte entries - "." with inode ni and ".." with the
supplied parent id, both of directory type - with every byte past the two
records zero, and the dumped inode record has link count 2, directory
mode (S_IFDIR | 0755) and size 128 = two entry-records. -/
theorem numbfs_empty_dir_two_entries
    (st : FsState) (pnid uid gid : Nat) (bufInit : Block) (ni bi : Nat)
    (hfreei : st.free_inodes ≠ 0)
    (hscani : bitmapScan st.disk st.ibitmap_start 0 st.total_inodes = some ni)
    (hfreeb : st.free_blocks ≠ 0)
    (hscanb : bitmapScan st.disk st.bbitmap_start 0 st.data_blocks = some bi)
    (hg1 : st.ibitmap_start + ni / NUMBFS_BLOCKS_PER_BLOCK < st.inode_start)
    (hg2 : st.inode_start + ni / NUMBFS_NODES_PER_BLOCK < st.bbitmap_start)
    (hg3 : st.bbitmap_start + bi / NUMBFS_BLOCKS_PER_BLOCK < st.data_start) :
    (numbfs_empty_dir st pnid uid gid bufInit).isSome = true ∧
    ∀ (ret : Int) (st2 : FsState),
      numbfs_empty_dir st pnid uid gid bufInit = some (ret, st2) →
      ret = (ni : Int) ∧
      (st2.disk (st.data_start + bi) 0 = 1 ∧
        st2.disk (st.data_start + bi) 1 = DT_DIR ∧
        st2.disk (st.data_start + bi) 2 = 46 ∧
        st2.disk (st.data_start + bi) 3 = 0 ∧
        st2.disk (st.data_start + bi) 62 = le16 ni 0 ∧
        st2.disk (st.data_start + bi) 63 = le16 ni 1) ∧
      (st2.disk (st.data_start + bi) 64 = 2 ∧
        st2.disk (st.data_start + bi) 65 = DT_DIR ∧
        st2.disk (st.data_start + bi) 66 = 46 ∧
        st2.disk (st.data_start + bi) 67 = 46 ∧
        st2.disk (st.data_start + bi) 68 = 0 ∧
        st2.disk (st.data_start + bi) 126 = le16 pnid 0 ∧
        st2.disk (st.data_start + bi) 127 = le16 pnid 1) ∧
      (∀ n, 2 * 64 ≤ n → st2.disk (st.data_start + bi) n = 0) ∧
      (st2.disk (st.inode_start + ni / NUMBFS_NODES_PER_BLOCK)
          (64 * (ni % NUMBFS_NODES_PER_BLOCK) + 2) = 2 ∧
        st2.disk (st.inode_start + ni / NUMBFS_NODES_PER_BLOCK)
          (64 * (ni % NUMBFS_NODES_PER_BLOCK) + 3) = 0 ∧
        st2.disk (st.inode_start + ni / NUMBFS_NODES_PER_BLOCK)
          (64 * (ni % NUMBFS_NODES_PER_BLOCK) + 8) = 237 ∧
        st2.disk (st.inode_start + ni / NUMBFS_NODES_PER_BLOCK)
          (64 * (ni % NUMBFS_NODES_PER_BLOCK) + 9) = 65 ∧
        st2.disk (st.inode_start + ni / NUMBFS_NODES_PER_BLOCK)
          (64 * (ni % NUMBFS_NODES_PER_BLOCK) + 10) = 0 ∧
        st2.disk (st.inode_start + ni / NUMBFS_NODES_PER_BLOCK)
          (64 * (ni % NUMBFS_NODES_PER_BLOCK) + 11) = 0 ∧
        st2.disk (st.inode_start + ni / NUMBFS_NODES_PER_BLOCK)
          (64 * (ni % NUMBFS_NODES_PER_BLOCK) + 12) = 128 ∧
        st2.disk (st.inode_start + ni / NUMBFS_NODES_PER_BLOCK)
          (64 * (ni % NUMBFS_NODES_PER_BLOCK) + 13) = 0 ∧
        st2.disk (st.inode_start + ni / NUMBFS_NODES_PER_BLOCK)
          (64 * (ni % NUMBFS_NODES_PER_BLOCK) + 14) = 0 ∧
        st2.disk (st.inode_start + ni / NUMBFS_NODES_PER_BLOCK)
          (64 * (ni % NUMBFS_NODES_PER_BLOCK) + 15) = 0) := by
  have hscan2 : bitmapScan (bitmapSetUnit st.disk st.ibitmap_start ni)
      st.bbitmap_start 0 st.data_blocks = some bi := by
    rw [bitmapScan_bitmapSetUnit_below st.disk st.ibitmap_start ni st.bbitmap_start
      st.data_blocks 0 (by
        unfold numbfs_bmap_blk
        simp only [NUMBFS_BLOCKS_PER_BLOCK, NUMBFS_NODES_PER_BLOCK, BYTES_PER_BLOCK,
          BITS_PER_BYTE] at hg1 hg2 ⊢
        omega)]
    exact hscanb
  have hneqA : ¬ (st.data_start + bi = st.inode_start + ni / NUMBFS_NODES_PER_BLOCK) := by
    simp only [NUMBFS_NODES_PER_BLOCK, NUMBFS_BLOCKS_PER_BLOCK, BYTES_PER_BLOCK,
      BITS_PER_BYTE] at hg2 hg3 ⊢
    omega
  constructor
  case left =>
    unfold numbfs_empty_dir
    rw [numbfs_alloc_inode_scan_some st hfreei ni hscani]
    dsimp only
    rw [if_neg (fun h => h rfl)]
    rw [numbfs_pwrite_inode]
    dsimp only
    rw [if_neg (by decide : ¬ BYTES_PER_BLOCK < 0 % BYTES_PER_BLOCK + 2 * 64)]
    rw [blkaddr_alloc_hole
      { st with disk := bitmapSetUnit st.disk st.ibitmap_start ni,
                free_inodes := st.free_inodes - 1 }
      { nid := ni, mode := S_IFDIR ||| 493, nlink := 2, uid := uid, gid := gid,
        size := max (2 * 64) (0 + 2 * 64), data := fun _ => NUMBFS_HOLE }
      0 (by decide) rfl hfreeb bi hscan2]
    dsimp only
    rw [if_neg (by omega : ¬ ((bi : Nat) : Int) < 0)]
    dsimp only
    rw [if_neg (fun h => h rfl)]
    rfl
  case right =>
  intro ret st2 heq
  unfold numbfs_empty_dir at heq
  rw [numbfs_alloc_inode_scan_some st hfreei ni hscani] at heq
  dsimp only at heq
  rw [if_neg (fun h => h rfl)] at heq
  rw [numbfs_pwrite_inode] at heq
  dsimp only at heq
  rw [if_neg (by decide : ¬ BYTES_PER_BLOCK < 0 % BYTES_PER_BLOCK + 2 * 64)] at heq
  rw [blkaddr_alloc_hole
    { st with disk := bitmapSetUnit st.disk st.ibitmap_start ni,
              free_inodes := st.free_inodes - 1 }
    { nid := ni, mode := S_IFDIR ||| 493, nlink := 2, uid := uid, gid := gid,
      size := max (2 * 64) (0 + 2 * 64), data := fun _ => NUMBFS_HOLE }
    0 (by decide) rfl hfreeb bi hscan2] at heq
  dsimp only at heq
  rw [if_neg (by omega : ¬ ((bi : Nat) : Int) < 0)] at heq
  dsimp only at heq
  rw [if_neg (fun h => h rfl)] at heq
  simp only [numbfs_data_blk, Int.toNat_natCast] at heq
  generalize hd3 : diskWrite (bitmapSetUnit (bitmapSetUnit st.disk st.ibitmap_start ni)
    st.bbitmap_start bi) (st.data_start + bi) zeroBlock = d3 at heq
  generalize hd4 : diskWrite d3 (st.data_start + bi)
    (fun n => if 0 % BYTES_PER_BLOCK ≤ n ∧ n < 0 % BYTES_PER_BLOCK + 2 * 64 then
      mkDirentBuf bufInit ni pnid (n - 0 % BYTES_PER_BLOCK)
     else d3 (st.data_start + bi) n) = d4 at heq
  simp only [Option.some.injEq, Prod.mk.injEq] at heq
  obtain ⟨hret, hst2⟩ := heq
  subst hst2
  refine ⟨hret.symm, ?hB, ?hC, ?hD, ?hE⟩
  case hB =>
    refine ⟨?_, ?_, ?_, ?_, ?_, ?_⟩ <;>
      (simp only [numbfs_dump_inode, numbfs_inode_blk, diskWrite, ite_apply,
         Int.toNat_natCast, if_neg hneqA, Nat.zero_mod]
       rw [← hd4]
       simp only [diskWrite, ite_apply, eq_self_iff_true, if_true, Nat.zero_mod]
       norm_num [mkDirentBuf, DT_DIR, le16])
  case hC =>
    refine ⟨?_, ?_, ?_, ?_, ?_, ?_, ?_⟩ <;>
      (simp only [numbfs_dump_inode, numbfs_inode_blk, diskWrite, ite_apply,
         Int.toNat_natCast, if_neg hneqA, Nat.zero_mod]
       rw [← hd4]
       simp only [diskWrite, ite_apply, eq_self_iff_true, if_true, Nat.zero_mod]
       norm_num [mkDirentBuf, DT_DIR, le16])
  case hD =>
    intro n hn
    simp only [numbfs_dump_inode, numbfs_inode_blk, diskWrite, ite_apply,
      Int.toNat_natCast, if_neg hneqA, Nat.zero_mod]
    rw [← hd4]
    simp only [diskWrite, ite_apply, eq_self_iff_true, if_true, Nat.zero_mod]
    rw [if_neg (by omega : ¬ (0 ≤ n ∧ n < 0 + 2 * 64))]
    rw [← hd3]
    simp only [diskWrite, ite_apply, eq_self_iff_true, if_true]
    simp [zeroBlock]
  case hE =>
    refine ⟨?_, ?_, ?_, ?_, ?_, ?_, ?_, ?_, ?_, ?_⟩ <;>
      (simp only [numbfs_dump_inode, numbfs_inode_blk, diskWrite, if_true]
       rw [dump_window])
    · rw [if_pos (by decide : (2 : Nat) < 64), inodeRecordByte_at2]
      show le16 2 0 = 2
      decide
    · rw [if_pos (by decide : (3 : Nat) < 64), inodeRecordByte_at3]
      show le16 2 1 = 0
      decide
    · rw [if_pos (by decide : (8 : Nat) < 64), inodeRecordByte_at8]
      show le32n (S_IFDIR ||| 493) 0 = 237
      decide
    · rw [if_pos (by decide : (9 : Nat) < 64), inodeRecordByte_at9]
      show le32n (S_IFDIR ||| 493) 1 = 65
      decide
    · rw [if_pos (by decide : (10 : Nat) < 64), inodeRecordByte_at10]
      show le32n (S_IFDIR ||| 493) 2 = 0
      decide
    · rw [if_pos (by decide : (11 : Nat) < 64), inodeRecordByte_at11]
      show le32n (S_IFDIR ||| 493) 3 = 0
      decide
    · rw [if_pos (by decide : (12 : Nat) < 64), inodeRecordByte_at12]
      show le32n (max (2 * 64) (0 + 2 * 64)) 0 = 128
      decide
    · rw [if_pos (by decide : (13 : Nat) < 64), inodeRecordByte_at13]
      show le32n (max (2 * 64) (0 + 2 * 64)) 1 = 0
      decide
    · rw [if_pos (by decide : (14 : Nat) < 64), inodeRecordByte_at14]
      show le32n (max (2 * 64) (0 + 2 * 64)) 2 = 0
      decide
    · rw [if_pos (by decide : (15 : Nat) < 64), inodeRecordByte_at15]
      show le32n (max (2 * 64) (0 + 2 * 64)) 3 = 0
      decide
theorem numbfs_empty_dir_two_entries_witness :
    (numbfs_empty_dir sampleSt 1 0 0 garbageBuf).isSome = true ∧
    ∀ (ret : Int) (st2 : FsState),
      numbfs_empty_dir sampleSt 1 0 0 garbageBuf = some (ret, st2) →
      ret = ((0 : Nat) : Int) ∧
      (st2.disk (sampleSt.data_start + 0) 0 = 1 ∧
        st2.disk (sampleSt.data_start + 0) 1 = DT_DIR ∧
        st2.disk (sampleSt.data_start + 0) 2 = 46 ∧
        st2.disk (sampleSt.data_start + 0) 3 = 0 ∧
        st2.disk (sampleSt.data_start + 0) 62 = le16 0 0 ∧
        st2.disk (sampleSt.data_start + 0) 63 = le16 0 1) ∧
      (st2.disk (sampleSt.data_start + 0) 64 = 2 ∧
        st2.disk (sampleSt.data_start + 0) 65 = DT_DIR ∧
        st2.disk (sampleSt.data_start + 0) 66 = 46 ∧
        st2.disk (sampleSt.data_start + 0) 67 = 46 ∧
        st2.disk (sampleSt.data_start + 0) 68 = 0 ∧
        st2.disk (sampleSt.data_start + 0) 126 = le16 1 0 ∧
        st2.disk (sampleSt.data_start + 0) 127 = le16 1 1) ∧
      (∀ n, 2 * 64 ≤ n → st2.disk (sampleSt.data_start + 0) n = 0) ∧
      (st2.disk (sampleSt.inode_start + 0 / NUMBFS_NODES_PER_BLOCK)
          (64 * (0 % NUMBFS_NODES_PER_BLOCK) + 2) = 2 ∧
        st2.disk (sampleSt.inode_start + 0 / NUMBFS_NODES_PER_BLOCK)
          (64 * (0 % NUMBFS_NODES_PER_BLOCK) + 3) = 0 ∧
        st2.disk (sampleSt.inode_start + 0 / NUMBFS_NODES_PER_BLOCK)
          (64 * (0 % NUMBFS_NODES_PER_BLOCK) + 8) = 237 ∧
        st2.disk (sampleSt.inode_start + 0 / NUMBFS_NODES_PER_BLOCK)
          (64 * (0 % NUMBFS_NODES_PER_BLOCK) + 9) = 65 ∧
        st2.disk (sampleSt.inode_start + 0 / NUMBFS_NODES_PER_BLOCK)
          (64 * (0 % NUMBFS_NODES_PER_BLOCK) + 10) = 0 ∧
        st2.disk (sampleSt.inode_start + 0 / NUMBFS_NODES_PER_BLOCK)
          (64 * (0 % NUMBFS_NODES_PER_BLOCK) + 11) = 0 ∧
        st2.disk (sampleSt.inode_start + 0 / NUMBFS_NODES_PER_BLOCK)
          (64 * (0 % NUMBFS_NODES_PER_BLOCK) + 12) = 128 ∧
        st2.disk (sampleSt.inode_start + 0 / NUMBFS_NODES_PER_BLOCK)
          (64 * (0 % NUMBFS_NODES_PER_BLOCK) + 13) = 0 ∧
        st2.disk (sampleSt.inode_start + 0 / NUMBFS_NODES_PER_BLOCK)
          (64 * (0 % NUMBFS_NODES_PER_BLOCK) + 14) = 0 ∧
        st2.disk (sampleSt.inode_start + 0 / NUMBFS_NODES_PER_BLOCK)
          (64 * (0 % NUMBFS_NODES_PER_BLOCK) + 15) = 0) :=
  numbfs_empty_dir_two_entries sampleSt 1 0 0 garbageBuf 0 0
    (by decide) (by decide) (by decide) (by decide)
    (by decide) (by decide) (by decide)
